import Mathlib

/-!
# Flow pipeline segments: a shallow embedding

The segments of the flow pipeline (`flowfilter`, `matching`, `snmpinterface`,
`influx`, `stdin`) are embedded as Lean functions.

* A flow record travels through channels as a pointer (`*pb.EnrichedFlow`);
  here a pointer is a natural number and the records live in a `Heap`.
* A `Run` method is embedded as the sequence of observable events (sends,
  channel close, wait-group signal, process exit) it performs when it consumes
  a given finite sequence of records from its input channel, after which the
  input channel is closed.
* Library code (the filter-expression parser, `net.IP.String`, the compiled
  description regex and `regexp.Compile`, the Influx connector, the reflection
  lookup `FieldByName`, `protojson.Unmarshal`, the case table of `unicode.ToLower`
  beyond ASCII) enters as parameters.
* The order in which `range` visits the keys of a map is a parameter, and a task
  started with `go` is recorded as started; its later effects are not part of the
  function that started it, and reach the later calls through a parameter.
* A panic ends the body of a function; its deferred calls still run.
-/

namespace Flowpipeline

/-! ## Records and configuration -/

/-- The fields of `pb.EnrichedFlow` that the embedded segments read or write. -/
structure EnrichedFlow where
  /-- The field `Type` (a reserved word here). -/
  Type_ : Nat := 0
  Proto : Nat := 0
  Bytes : Nat := 0
  Packets : Nat := 0
  InIf : Nat := 0
  OutIf : Nat := 0
  SrcPort : Nat := 0
  SrcAddr : List Nat := []
  DstAddr : List Nat := []
  SamplerAddress : List Nat := []
  SourceIP : String := ""
  DestinationIP : String := ""
  Note : String := ""
  Cid : Nat := 0
  Tid : Nat := 0
  Inlist : Bool := false
  SrcIfName : String := ""
  SrcIfDesc : String := ""
  SrcIfSpeed : Nat := 0
  DstIfName : String := ""
  DstIfDesc : String := ""
  DstIfSpeed : Nat := 0
  deriving DecidableEq, Repr

/-- A `*pb.EnrichedFlow`. -/
abbrev Ptr := Nat

/-- The records the pointers refer to. -/
abbrev Heap := Ptr → EnrichedFlow

/-- Assignment through a pointer: `*p = f`. -/
def Heap.set (h : Heap) (p : Ptr) (f : EnrichedFlow) : Heap :=
  fun q => if q = p then f else h q

/-- A `map[string]string` as an association list; the first binding of a key counts. -/
abbrev StrMap := List (String × String)

/-- The two-result index expression `v, ok := m[k]`. -/
def StrMap.lookup (m : StrMap) (k : String) : Option String :=
  (m.find? (fun kv => kv.1 == k)).map (fun kv => kv.2)

/-- The one-result index expression `m[k]`: the zero value `""` when the key is absent. -/
def StrMap.get (m : StrMap) (k : String) : String :=
  (m.lookup k).getD ""

/-- The assignment `m[k] = v`. -/
def StrMap.insert (m : StrMap) (k v : String) : StrMap :=
  (k, v) :: m.filter (fun kv => !(kv.1 == k))

/-! ## The two regular expressions of `flowfilter.go`

`regexp` works on the runes of the string; a string is here its sequence of
runes, so it is valid UTF-8. The patterns `(?i)\btid\b` and `(?i)(\b)tid(\b)`
are sequences of three kinds of atoms. Under `(?i)` each of the letters t, i, d
matches its lowercase and its uppercase form and no other rune. -/

/-- The atoms the two patterns are built from. -/
inductive Atom
  /-- The assertion `\b`. -/
  | wordBoundary
  /-- The capturing group `(\b)`. -/
  | capWordBoundary
  /-- A letter under `(?i)` whose case-folding orbit is `lo`, `up`. -/
  | foldLit (lo up : Char)
  deriving DecidableEq, Repr

/-- The word characters of RE2: `[0-9A-Za-z_]`. -/
def isWordChar (c : Char) : Bool :=
  c.isAlphanum || c == '_'

/-- Whether the rune on one side of a position (none at either end of the text) is a word character. -/
def isWordOpt : Option Char → Bool
  | none => false
  | some c => isWordChar c

/-- The assertion `\b` between the rune `prev` and the rune `next`. -/
def atWordBoundary (prev next : Option Char) : Bool :=
  isWordOpt prev != isWordOpt next

/-- Match a sequence of atoms at the start of `s`, the rune before it being `prev`.
Returns the number of runes consumed and the text of the capturing groups. -/
def matchHere : List Atom → Option Char → List Char → Option (Nat × List (List Char))
  | [], _, _ => some (0, [])
  | Atom.wordBoundary :: atoms, prev, s =>
    if atWordBoundary prev s.head? then matchHere atoms prev s else none
  | Atom.capWordBoundary :: atoms, prev, s =>
    if atWordBoundary prev s.head? then
      (matchHere atoms prev s).map (fun r => (r.1, [] :: r.2))
    else none
  | Atom.foldLit _ _ :: _, _, [] => none
  | Atom.foldLit lo up :: atoms, _, c :: cs =>
    if c == lo || c == up then
      (matchHere atoms (some c) cs).map (fun r => (r.1 + 1, r.2))
    else none

/-- The method `FindStringIndex`, on the suffix `s` that follows the rune `prev`: the
bounds of the leftmost match, relative to the start of `s`. -/
def findIndexFrom (pat : List Atom) : Option Char → List Char → Option (Nat × Nat)
  | prev, [] => (matchHere pat prev []).map (fun r => (0, r.1))
  | prev, c :: cs =>
    match matchHere pat prev (c :: cs) with
    | some r => some (0, r.1)
    | none => (findIndexFrom pat (some c) cs).map (fun r => (r.1 + 1, r.2 + 1))

/-- A replacement template: literal text and group references. -/
inductive TemplatePart
  | text (t : List Char)
  | group (n : Nat)
  deriving DecidableEq, Repr

/-- Expansion of a template against the captured groups (numbered from 1). -/
def expandTemplate (tpl : List TemplatePart) (caps : List (List Char)) : List Char :=
  tpl.flatMap (fun part =>
    match part with
    | TemplatePart.text t => t
    | TemplatePart.group n => (caps.get? (n - 1)).getD [])

/-- The loop of `ReplaceAllString` on the suffix `s` that follows the rune `prev`:
copy up to the leftmost match, insert the expanded template, continue after the
match. An empty match is replaced unless it directly follows a match, and the
search then advances by one rune. `fuel` bounds the number of iterations. -/
def replaceAllFrom (pat : List Atom) (tpl : List TemplatePart) :
    Nat → Bool → Option Char → List Char → List Char
  | 0, _, _, s => s
  | fuel + 1, justMatched, prev, s =>
    match matchHere pat prev s with
    | some (n + 1, caps) =>
      expandTemplate tpl caps ++
        replaceAllFrom pat tpl fuel true ((s.take (n + 1)).getLast?) (s.drop (n + 1))
    | some (0, caps) =>
      (if justMatched then [] else expandTemplate tpl caps) ++
        (match s with
         | [] => []
         | c :: cs => c :: replaceAllFrom pat tpl fuel false (some c) cs)
    | none =>
      match s with
      | [] => []
      | c :: cs => c :: replaceAllFrom pat tpl fuel false (some c) cs

/-- The method `ReplaceAllString`. -/
def replaceAllString (pat : List Atom) (tpl : List TemplatePart) (s : String) : String :=
  String.mk (replaceAllFrom pat tpl (s.data.length + 1) false none s.data)

/-- The pattern `(?i)\btid\b`. -/
def tidPattern : List Atom :=
  [Atom.wordBoundary, Atom.foldLit 't' 'T', Atom.foldLit 'i' 'I', Atom.foldLit 'd' 'D',
   Atom.wordBoundary]

/-- The pattern `(?i)(\b)tid(\b)`. -/
def tidCapturePattern : List Atom :=
  [Atom.capWordBoundary, Atom.foldLit 't' 'T', Atom.foldLit 'i' 'I', Atom.foldLit 'd' 'D',
   Atom.capWordBoundary]

/-- The template that puts `cid` between the two captured groups. -/
def cidTemplate : List TemplatePart :=
  [TemplatePart.group 1, TemplatePart.text ['c', 'i', 'd'], TemplatePart.group 2]

/-- The function `containsTid`: `re.FindStringIndex(s) != nil`. -/
def containsTid (s : String) : Bool :=
  (findIndexFrom tidPattern none s.data).isSome

/-- The function `rewriteTidToCid`: `re.ReplaceAllString` with the `cid` template. -/
def rewriteTidToCid (s : String) : String :=
  replaceAllString tidCapturePattern cidTemplate s

/-! ## Strings -/

/-- The predicate `unicode.IsSpace`. -/
def isSpace (c : Char) : Bool :=
  let n := c.toNat
  (9 ≤ n && n ≤ 13) || n == 0x20 || n == 0x85 || n == 0xA0 || n == 0x1680 ||
    (0x2000 ≤ n && n ≤ 0x200A) || n == 0x2028 || n == 0x2029 || n == 0x202F ||
    n == 0x205F || n == 0x3000

/-- The function `strings.TrimSpace`. -/
def TrimSpace (s : String) : String :=
  String.mk ((s.data.dropWhile isSpace).reverse.dropWhile isSpace).reverse

/-- The function `strings.HasPrefix`. -/
def HasPrefix (s p : String) : Bool :=
  p.data.isPrefixOf s.data

/-! ## Events of a running segment

Writes to the log and to standard output are not recorded, except the fatal
ones: `log.Fatalf` prints and then calls `os.Exit(1)`, which ends the process
without running deferred functions. -/

/-- What a `Run` method does that another task, or the process, can observe. -/
inductive Event
  /-- The send `segment.Out <- msg`. -/
  | sendOut (p : Ptr)
  /-- The send `segment.Drops <- msg`. -/
  | sendDrops (p : Ptr)
  /-- The call `close(segment.Out)`. -/
  | closeOut
  /-- The call `wg.Done()`. -/
  | wgDone
  /-- The call `os.Exit(code)` made by `log.Fatalf`. -/
  | osExit (code : Nat)
  /-- The call `file.Close()`. -/
  | fileClose
  /-- The call `connector.Initialize()`. -/
  | connectorInit
  /-- The call `writeAPI.WritePoint` for the point made from the record `p`. -/
  | writePoint (p : Ptr)
  /-- The call `writeAPI.Flush()`. -/
  | flush
  /-- The call `connector.influxClient.Close()`. -/
  | clientClose
  deriving DecidableEq, Repr

/-- The records sent on `Out`, in the order sent. -/
def outSent (t : List Event) : List Ptr :=
  t.filterMap (fun e => match e with
    | Event.sendOut p => some p
    | _ => none)

/-- The records sent on `Drops`, in the order sent. -/
def dropsSent (t : List Event) : List Ptr :=
  t.filterMap (fun e => match e with
    | Event.sendDrops p => some p
    | _ => none)

/-- How the body of a function ended: by returning, by `os.Exit`, or by a panic. -/
inductive Outcome
  | returned
  | exited
  | panicked
  deriving DecidableEq, Repr

/-- The statement `defer`: the deferred events run when the body returns and when it
panics (after them an unrecovered panic ends the process), and do not run when the
body ends the process with `os.Exit`. -/
def withDefer (deferred : List Event) (body : List Event × Outcome) : List Event :=
  match body.2 with
  | Outcome.returned => body.1 ++ deferred
  | Outcome.exited => body.1
  | Outcome.panicked => body.1 ++ deferred

/-! ## Segment `flowfilter` -/

/-- The filter library: `parser.Parse` and the method `Filter.CheckFlow`, whose first
argument here is the field `useTid` of the `Filter` it is called on. -/
structure FilterLib (Expr : Type) where
  Parse : String → Except String Expr
  CheckFlow : Bool → Expr → EnrichedFlow → Bool × Option String

/-- The struct `FlowFilter`; `Drops` is the channel of `BaseFilterSegment`, nil when unused. -/
structure FlowFilter (Expr : Type) where
  Drops : Option Nat := none
  Filter : String
  expression : Expr
  useTid : Bool

/-- The method `FlowFilter.New`; `none` is the nil segment. -/
def FlowFilter.New {Expr : Type} (lib : FilterLib Expr) (config : StrMap) :
    Option (FlowFilter Expr) :=
  let parsed :=
    if containsTid (config.get "filter") then
      lib.Parse (rewriteTidToCid (config.get "filter"))
    else
      lib.Parse (config.get "filter")
  match parsed with
  | Except.error _ => none
  | Except.ok e =>
    match (lib.CheckFlow false e {}).2 with
    | some _ => none
    | none =>
      some { Filter := config.get "filter", expression := e,
             useTid := containsTid (config.get "filter") }

/-- The loop `for msg := range segment.In` of `FlowFilter.Run`. -/
def FlowFilter.loop {Expr : Type} (lib : FilterLib Expr) (segment : FlowFilter Expr)
    (heap : Heap) : List Ptr → List Event
  | [] => []
  | msg :: rest =>
    (if (lib.CheckFlow segment.useTid segment.expression (heap msg)).1 then
      [Event.sendOut msg]
    else if segment.Drops.isSome then
      [Event.sendDrops msg]
    else
      []) ++ FlowFilter.loop lib segment heap rest

/-- The method `FlowFilter.Run` on the records `input` received before `In` is closed. -/
def FlowFilter.Run {Expr : Type} (lib : FilterLib Expr) (segment : FlowFilter Expr)
    (heap : Heap) (input : List Ptr) : List Event :=
  withDefer [Event.closeOut, Event.wgDone]
    (FlowFilter.loop lib segment heap input, Outcome.returned)

/-! ## Segment `matching` -/

/-- The struct `MatchingSegment`. -/
structure MatchingSegment where
  CSVData : StrMap := []
  ipListPath : String := ""
  deriving DecidableEq, Repr

/-- The segments the `*MatchingSegment` pointers refer to. -/
abbrev SegStore := Ptr → MatchingSegment

/-- The method `MatchingSegment.New` on the receiver `m`: it assigns to the fields of
`*m` and returns `m`. -/
def MatchingSegment.New (store : SegStore) (m : Ptr) (config : StrMap) : Ptr × SegStore :=
  let path :=
    match config.lookup "ip_list_path" with
    | some p => if TrimSpace p != "" then p else "segments/matching/bad_ips.txt"
    | none => "segments/matching/bad_ips.txt"
  (m, fun q => if q = m then { CSVData := [], ipListPath := path } else store q)

/-- What the file behind a path does when `Run` opens, scans and closes it. -/
structure IPListFile where
  /-- Whether `os.Open` returns an error. -/
  openFails : Bool := false
  /-- The lines `scanner.Scan` delivers before it returns false. -/
  lines : List String := []
  /-- Whether `scanner.Err` is non-nil after the scan. -/
  scanFails : Bool := false
  /-- Whether `file.Close` returns an error. -/
  closeFails : Bool := false
  deriving DecidableEq, Repr

/-- The loop `for scanner.Scan()` of `MatchingSegment.Run`. -/
def MatchingSegment.loadLines (csv : StrMap) : List String → StrMap
  | [] => csv
  | text :: rest =>
    let line := TrimSpace text
    if line == "" || HasPrefix line "#" then
      MatchingSegment.loadLines csv rest
    else
      MatchingSegment.loadLines (csv.insert line "bad_ip") rest

/-- The body of the loop `for msg := range m.In`, up to the send. -/
def MatchingSegment.tag (ipString : List Nat → String) (csv : StrMap) (heap : Heap)
    (msg : Ptr) : Heap :=
  let src := if (heap msg).SourceIP == "" then ipString (heap msg).SrcAddr
             else (heap msg).SourceIP
  let dst := if (heap msg).DestinationIP == "" then ipString (heap msg).DstAddr
             else (heap msg).DestinationIP
  let matched := (src != "" && (csv.lookup src).isSome) || (dst != "" && (csv.lookup dst).isSome)
  if matched && (heap msg).Note == "" then
    heap.set msg { heap msg with Note := "inlist" }
  else
    heap

/-- The loop `for msg := range m.In` of `MatchingSegment.Run`. -/
def MatchingSegment.loop (ipString : List Nat → String) (csv : StrMap) :
    Heap → List Ptr → List Event × Heap
  | heap, [] => ([], heap)
  | heap, msg :: rest =>
    let heap1 := MatchingSegment.tag ipString csv heap msg
    let r := MatchingSegment.loop ipString csv heap1 rest
    (Event.sendOut msg :: r.1, r.2)

/-- The body of `MatchingSegment.Run`: load the list, then process the records. -/
def MatchingSegment.body (ipString : List Nat → String) (fs : String → IPListFile)
    (m : MatchingSegment) (heap : Heap) (input : List Ptr) :
    (List Event × Outcome) × Heap × MatchingSegment :=
  let file := fs m.ipListPath
  if file.openFails then
    (([Event.osExit 1], Outcome.exited), heap, m)
  else
    let m1 := { m with CSVData := MatchingSegment.loadLines m.CSVData file.lines }
    if file.scanFails then
      (([Event.fileClose, Event.osExit 1], Outcome.exited), heap, m1)
    else if file.closeFails then
      (([Event.fileClose, Event.osExit 1], Outcome.exited), heap, m1)
    else
      let r := MatchingSegment.loop ipString m1.CSVData heap input
      ((Event.fileClose :: r.1, Outcome.returned), r.2, m1)

/-- The method `MatchingSegment.Run`: the events, the records and the segment afterwards. -/
def MatchingSegment.Run (ipString : List Nat → String) (fs : String → IPListFile)
    (m : MatchingSegment) (heap : Heap) (input : List Ptr) :
    List Event × Heap × MatchingSegment :=
  let b := MatchingSegment.body ipString fs m heap input
  (withDefer [Event.closeOut, Event.wgDone] b.1, b.2)

/-- Whether the three file operations of the initialization stage succeed. -/
def IPListFile.loads (file : IPListFile) : Bool :=
  !file.openFails && !file.scanFails && !file.closeFails

/-! ## Segment `snmpinterface` -/

/-- The struct `SNMPInterface`. -/
structure SNMPInterface where
  Community : String
  Regex : String
  ConnLimit : Nat
  deriving DecidableEq, Repr

/-! ## The SNMP cache and `fetchInterfaceData`

The cache is taken at the time of a call: an entry that has expired is an absent
entry. The statement `go segment.querySNMP(...)` starts a task; the call records
that it started it, and what the task later writes to the cache is not part of the
call: it reaches the next call through `SNMPLib.tasks`. -/

/-- A value held by the cache, an `interface{}`. -/
inductive CacheValue
  /-- The nil value, the mark of a key that is being queried. -/
  | nil
  /-- A value of dynamic type `string`. -/
  | str (s : String)
  /-- A value of dynamic type `uint64`. -/
  | u64 (n : Nat)
  /-- A value of any other dynamic type. -/
  | other
  deriving DecidableEq, Repr

/-- The cache: the entry found under a key, if any. -/
abbrev SNMPCache := String → Option CacheValue

/-- The method `Set` of the cache. -/
def SNMPCache.Set (cache : SNMPCache) (k : String) (v : CacheValue) : SNMPCache :=
  fun q => if q = k then some v else cache q

/-- The cache key `fmt.Sprintf("%s-%d-%s", router, iface, key)`. -/
def cacheKey (router : String) (iface : Nat) (key : String) : String :=
  router ++ "-" ++ toString iface ++ "-" ++ key

/-- How a call of `fetchInterfaceData` ends: it returns three values, or a type
assertion on a cached value panics. -/
inductive FetchResult
  | returned (name desc : String) (speed : Nat)
  | panicked
  deriving DecidableEq, Repr

/-- The variables of `fetchInterfaceData` during its loop, the cache and the keys for
which a query task has been started. -/
structure FetchState where
  name : String := ""
  desc : String := ""
  speed : Nat := 0
  cache : SNMPCache
  spawned : List String := []

/-- The loop `for key := range oidExts` of `fetchInterfaceData` over the keys in the
order the map iteration yields them. -/
def SNMPInterface.fetchLoop (router : String) (iface : Nat) :
    List String → FetchState → FetchResult × SNMPCache × List String
  | [], st => (FetchResult.returned st.name st.desc st.speed, st.cache, st.spawned)
  | key :: rest, st =>
    match st.cache (cacheKey router iface key) with
    | some CacheValue.nil => (FetchResult.returned "" "" 0, st.cache, st.spawned)
    | some value =>
      if key == "name" then
        match value with
        | CacheValue.str s => SNMPInterface.fetchLoop router iface rest { st with name := s }
        | _ => (FetchResult.panicked, st.cache, st.spawned)
      else if key == "desc" then
        match value with
        | CacheValue.str s => SNMPInterface.fetchLoop router iface rest { st with desc := s }
        | _ => (FetchResult.panicked, st.cache, st.spawned)
      else if key == "speed" then
        match value with
        | CacheValue.u64 n =>
          SNMPInterface.fetchLoop router iface rest { st with speed := n % 2 ^ 32 }
        | _ => (FetchResult.panicked, st.cache, st.spawned)
      else SNMPInterface.fetchLoop router iface rest st
    | none =>
      SNMPInterface.fetchLoop router iface rest
        { st with
          cache := st.cache.Set (cacheKey router iface key) CacheValue.nil,
          spawned := st.spawned ++ [key] }

/-- The method `SNMPInterface.fetchInterfaceData`; `order` is the order in which the
iteration over the map `oidExts` yields its keys `name`, `speed`, `desc`. The result
is how the call ends, the cache afterwards and the keys for which it started a query. -/
def SNMPInterface.fetchInterfaceData (order : List String) (cache : SNMPCache)
    (router : String) (iface : Nat) : FetchResult × SNMPCache × List String :=
  SNMPInterface.fetchLoop router iface order { cache := cache }

/-- Whether a cache entry has the dynamic type that `fetchInterfaceData` asserts for its
key: any entry may be absent or nil; `name` and `desc` hold a `string`, `speed` holds
a `uint64`. -/
def entryWellTyped (key : String) : Option CacheValue → Bool
  | none => true
  | some CacheValue.nil => true
  | some (CacheValue.str _) => key != "speed"
  | some (CacheValue.u64 _) => key != "name" && key != "desc"
  | some CacheValue.other => key != "name" && key != "desc" && key != "speed"

/-! ## The loop of `SNMPInterface.Run` -/

/-- What surrounds `SNMPInterface.Run`: `net.IP.String`, the method
`compiledRegex.FindStringSubmatch`, the order in which the `n`-th call of
`fetchInterfaceData` visits the keys of `oidExts`, and what the query tasks started
so far (and expiry) have done to the cache by the time of the `n`-th call. -/
structure SNMPLib where
  ipString : List Nat → String
  FindStringSubmatch : String → List String
  order : Nat → List String
  tasks : Nat → SNMPCache → SNMPCache

/-- The cache of the segment and the number of calls of `fetchInterfaceData` so far. -/
structure SNMPState where
  cache : SNMPCache
  calls : Nat := 0

/-- The cleaning of an interface description by the first group of the regex. -/
def SNMPInterface.cleanDesc (lib : SNMPLib) (desc : String) : String :=
  if desc != "" then
    match lib.FindStringSubmatch desc with
    | _ :: g :: _ => g
    | _ => desc
  else desc

/-- One call `segment.fetchInterfaceData(router, iface)` from the loop of `Run`. -/
def SNMPInterface.fetch (lib : SNMPLib) (st : SNMPState) (router : String) (iface : Nat) :
    FetchResult × SNMPState :=
  let r := SNMPInterface.fetchInterfaceData (lib.order st.calls)
    (lib.tasks st.calls st.cache) router iface
  (r.1, { cache := r.2.1, calls := st.calls + 1 })

/-- The body of the loop `for msg := range segment.In`, up to the send; it ends with
`Outcome.panicked` when a call of `fetchInterfaceData` panics. -/
def SNMPInterface.enrich (lib : SNMPLib) (st : SNMPState) (heap : Heap) (msg : Ptr) :
    Outcome × SNMPState × Heap :=
  let router := lib.ipString (heap msg).SamplerAddress
  let s1 : Outcome × SNMPState × Heap :=
    if (heap msg).InIf > 0 then
      match SNMPInterface.fetch lib st router (heap msg).InIf with
      | (FetchResult.panicked, st1) => (Outcome.panicked, st1, heap)
      | (FetchResult.returned name desc speed, st1) =>
        (Outcome.returned, st1, heap.set msg { heap msg with
          SrcIfName := name, SrcIfDesc := SNMPInterface.cleanDesc lib desc,
          SrcIfSpeed := speed })
    else (Outcome.returned, st, heap)
  match s1 with
  | (Outcome.returned, st1, heap1) =>
    if (heap1 msg).OutIf > 0 then
      match SNMPInterface.fetch lib st1 router (heap1 msg).OutIf with
      | (FetchResult.panicked, st2) => (Outcome.panicked, st2, heap1)
      | (FetchResult.returned name desc speed, st2) =>
        (Outcome.returned, st2, heap1.set msg { heap1 msg with
          DstIfName := name, DstIfDesc := SNMPInterface.cleanDesc lib desc,
          DstIfSpeed := speed })
    else (Outcome.returned, st1, heap1)
  | other => other

/-- The loop `for msg := range segment.In` of `SNMPInterface.Run`; a panic ends it. -/
def SNMPInterface.loop (lib : SNMPLib) :
    SNMPState → Heap → List Ptr → (List Event × Outcome) × SNMPState × Heap
  | st, heap, [] => (([], Outcome.returned), st, heap)
  | st, heap, msg :: rest =>
    match SNMPInterface.enrich lib st heap msg with
    | (Outcome.returned, st1, heap1) =>
      let r := SNMPInterface.loop lib st1 heap1 rest
      ((Event.sendOut msg :: r.1.1, r.1.2), r.2)
    | (other, st1, heap1) => (([], other), st1, heap1)

/-- The method `SNMPInterface.Run`, which starts with a fresh, empty cache: the events,
how the body ended, and the cache and the records afterwards. -/
def SNMPInterface.Run (lib : SNMPLib) (heap : Heap) (input : List Ptr) :
    (List Event × Outcome) × SNMPState × Heap :=
  let r := SNMPInterface.loop lib { cache := fun _ => none } heap input
  ((withDefer [Event.closeOut, Event.wgDone] r.1, r.1.2), r.2)

/-! ## Segment `influx` -/

/-- The loop `for msg := range segment.In` of `Influx.Run`; `createPoint` tells
whether `connector.CreatePoint` returns a point for a record. -/
def Influx.loop (createPoint : EnrichedFlow → Bool) (heap : Heap) : List Ptr → List Event
  | [] => []
  | msg :: rest =>
    (if createPoint (heap msg) then [Event.sendOut msg, Event.writePoint msg]
     else [Event.sendOut msg]) ++ Influx.loop createPoint heap rest

/-- The method `Influx.Run`. The call `connector.Initialize()` is taken to return. -/
def Influx.Run (createPoint : EnrichedFlow → Bool) (heap : Heap) (input : List Ptr) :
    List Event :=
  withDefer [Event.closeOut, Event.flush, Event.clientClose, Event.wgDone]
    (Event.connectorInit :: Influx.loop createPoint heap input, Outcome.returned)

/-! ## Segment `stdin` -/

/-- One turn of the `select` in `StdIn.Run`. -/
inductive SelectCase
  /-- The case `msg, ok := <-segment.In`; `none` is the closed channel (`ok` false). -/
  | recvIn (msg : Option Ptr)
  /-- The case `line := <-fromStdin`. -/
  | recvLine (line : String)
  deriving DecidableEq, Repr

/-- The loop `for { select { ... } }` of `StdIn.Run` over the turns the scheduler
takes; `next` is the address of the next allocated record. When the turns end
before `In` is seen closed, the loop is blocked in `select` and has not returned. -/
def StdIn.loop (unmarshal : String → Option EnrichedFlow) :
    Ptr → Heap → List SelectCase → (List Event × Bool) × Heap
  | _, heap, [] => (([], false), heap)
  | _, heap, SelectCase.recvIn none :: _ => (([], true), heap)
  | next, heap, SelectCase.recvIn (some msg) :: rest =>
    let r := StdIn.loop unmarshal next heap rest
    ((Event.sendOut msg :: r.1.1, r.1.2), r.2)
  | next, heap, SelectCase.recvLine line :: rest =>
    match unmarshal line with
    | none => StdIn.loop unmarshal next heap rest
    | some flow =>
      let r := StdIn.loop unmarshal (next + 1) (heap.set next flow) rest
      ((Event.sendOut next :: r.1.1, r.1.2), r.2)

/-- The method `StdIn.Run`: the deferred close and signal run once the loop returns. -/
def StdIn.Run (unmarshal : String → Option EnrichedFlow) (next : Ptr) (heap : Heap)
    (turns : List SelectCase) : List Event × Heap :=
  let r := StdIn.loop unmarshal next heap turns
  ((if r.1.2 then r.1.1 ++ [Event.closeOut, Event.wgDone] else r.1.1), r.2)

/-! ## Pipelines, the segment `pass`, the segment `dropfields` and the branch segment

These parts of the repository are written down from the specification. A
stage is what a segment makes of a finite stream of records: the records it
sends on `Out`, in order, and the heap afterwards. -/

/-- A segment as a function of its whole input stream. -/
abbrev Stage := Heap → List Ptr → List Ptr × Heap

/-- Modelled from the spec: the method `Pass.Run` of the identity segment `pass`, whose
source is absent; it forwards every record it receives and closes `Out` on exit. -/
def Pass.Run (input : List Ptr) : List Event :=
  withDefer [Event.closeOut, Event.wgDone] (input.map Event.sendOut, Outcome.returned)

/-- Modelled from the spec: the segment `pass` as a stage. -/
def Pass.stage : Stage :=
  fun heap input => (outSent (Pass.Run input), heap)

/-- Modelled from the spec: the pipeline of section 4.3, data flowing left to right
through its segments, `In` being the input of the first and `Out` the output of the
last; the source of the pipeline is absent. An empty chain is the identity. -/
def Pipeline.run : List Stage → Stage
  | [], heap, input => (input, heap)
  | seg :: rest, heap, input =>
    let r := seg heap input
    Pipeline.run rest r.2 r.1

/-- The segment `flowfilter` as a stage. -/
def FlowFilter.stage {Expr : Type} (lib : FilterLib Expr) (segment : FlowFilter Expr) : Stage :=
  fun heap input => (outSent (FlowFilter.Run lib segment heap input), heap)

/-- Modelled from the spec: what `dropfields` with policy `drop` does to one record for
one field name (scenario S2: the dropped field reads as its zero value); the source
of the segment is absent. -/
def dropField (name : String) (f : EnrichedFlow) : EnrichedFlow :=
  if name == "InIf" then { f with InIf := 0 }
  else if name == "OutIf" then { f with OutIf := 0 }
  else if name == "Bytes" then { f with Bytes := 0 }
  else if name == "Packets" then { f with Packets := 0 }
  else if name == "Proto" then { f with Proto := 0 }
  else if name == "Type" then { f with Type_ := 0 }
  else if name == "Note" then { f with Note := "" }
  else f

/-- Modelled from the spec: the segment `dropfields` with policy `drop` as a stage; every
record is forwarded with the listed fields dropped. -/
def DropFields.stage (fields : List String) : Stage
  | heap, [] => ([], heap)
  | heap, msg :: rest =>
    let r := DropFields.stage fields (heap.set msg (fields.foldl (fun f n => dropField n f) (heap msg))) rest
    (msg :: r.1, r.2)

/-- Modelled from the spec: the routing of one record by the branch segment of section
4.6. The record goes through the `if` sub-pipeline; what that emits goes through
`then`; when it emits nothing, the record itself goes through `else`. -/
def Branch.route (ifP thenP elseP : List Stage) (heap : Heap) (r : Ptr) : List Ptr × Heap :=
  let c := Pipeline.run ifP heap [r]
  if c.1.isEmpty then Pipeline.run elseP c.2 [r] else Pipeline.run thenP c.2 c.1

/-- Modelled from the spec: the branch segment as a stage, the records taken one after
the other and the outputs of `then` and `else` merged in that order. -/
def Branch.stage (ifP thenP elseP : List Stage) : Stage
  | heap, [] => ([], heap)
  | heap, r :: rest =>
    let o := Branch.route ifP thenP elseP heap r
    let t := Branch.stage ifP thenP elseP o.2 rest
    (o.1 ++ t.1, t.2)

/-- Modelled from the spec: the predicate `proto tcp` of scenario S2 as a filter
library; the expression language itself belongs to the external `flowfilter` project. -/
def protoTcpLib : FilterLib Unit where
  Parse := fun _ => Except.ok ()
  CheckFlow := fun _ _ flow => (flow.Proto == 6, none)

/-- Modelled from the spec: the `flowfilter` segment of scenario S2, configured with the
filter `proto tcp`. -/
def protoTcpSegment : FlowFilter Unit where
  Filter := "proto tcp"
  expression := ()
  useTid := false

/-! ## Statements used by the theorems -/

/-- A trace in which `Out` is closed once, after every send, and the wait group is
signalled last: `body`, then `close(Out)`, then clean-up `tail`, then `wg.Done()`. -/
def ClosesOutOnExit (t : List Event) : Prop :=
  ∃ body tail : List Event,
    t = body ++ Event.closeOut :: (tail ++ [Event.wgDone]) ∧
    Event.closeOut ∉ body ∧ Event.wgDone ∉ body ∧
    Event.closeOut ∉ tail ∧ Event.wgDone ∉ tail ∧
    outSent tail = [] ∧ dropsSent tail = []

/-- Whether the rune at position `i` of `s` is `lo` or `up`. -/
def runeIs (s : List Char) (i : Nat) (lo up : Char) : Bool :=
  s.get? i == some lo || s.get? i == some up

/-- The words of the claim on `containsTid`: at position `i` of `s` stand the letters
t, i, d in any letter case, the rune before position `i` (if any) is not a letter,
digit or underscore, and neither is the rune after the three letters (if any). -/
def standaloneTidAt (s : List Char) (i : Nat) : Bool :=
  runeIs s i 't' 'T' && runeIs s (i + 1) 'i' 'I' && runeIs s (i + 2) 'd' 'D' &&
    !(0 < i && isWordOpt (s.get? (i - 1))) && !isWordOpt (s.get? (i + 3))

/-- The words of the claim on `rewriteTidToCid`: the rune at position `k` of the result,
which is a letter of `cid` inside a standalone tid token of `s` and the rune of `s`
elsewhere. -/
def rewrittenRune (s : List Char) (k : Nat) : Option Char :=
  if standaloneTidAt s k then some 'c'
  else if 1 ≤ k && standaloneTidAt s (k - 1) then some 'i'
  else if 2 ≤ k && standaloneTidAt s (k - 2) then some 'd'
  else s.get? k


/-! ## Auxiliary forms of the token test, relative to a suffix -/

/-- Whether a standalone tid token starts the suffix `s` that follows the rune `prev`. -/
def tokenHere (prev : Option Char) : List Char → Bool
  | a :: b :: c :: rest =>
    (a == 't' || a == 'T') && (b == 'i' || b == 'I') && (c == 'd' || c == 'D') &&
      !isWordOpt prev && !isWordOpt rest.head?
  | _ => false

/-- Whether a standalone tid token starts at position `i` of the suffix `s` that follows
the rune `prev`. -/
def standaloneFrom : Option Char → List Char → Nat → Bool
  | prev, s, 0 => tokenHere prev s
  | _, [], _ + 1 => false
  | _, c :: cs, i + 1 => standaloneFrom (some c) cs i

/-- The rune at position `k` of the rewriting of the suffix `s` that follows `prev`. -/
def rewrittenFrom (prev : Option Char) (s : List Char) (k : Nat) : Option Char :=
  if standaloneFrom prev s k then some 'c'
  else if 1 ≤ k && standaloneFrom prev s (k - 1) then some 'i'
  else if 2 ≤ k && standaloneFrom prev s (k - 2) then some 'd'
  else s.get? k

/-! ## Tagging of matched flows (`Tagging.go`) -/

/-- The constant `TagIDBadIP`. -/
def TagIDBadIP : Nat := 65001

/-- The function `unicode.ToLower` on one rune: on ASCII it maps `A`..`Z` to `a`..`z`;
beyond ASCII it is the case table of the library, the parameter `table`. -/
def toLowerRune (table : Char → Char) (c : Char) : Char :=
  if c.toNat < 128 then
    (if 'A'.toNat ≤ c.toNat && c.toNat ≤ 'Z'.toNat then Char.ofNat (c.toNat + 32) else c)
  else table c

/-- The function `strings.ToLower`. -/
def ToLower (table : Char → Char) (s : String) : String :=
  String.mk (s.data.map (toLowerRune table))

/-- The function `strings.ReplaceAll` for a one-rune `old`. -/
def ReplaceAll (s : String) (old : Char) (new : String) : String :=
  String.mk (s.data.flatMap (fun c => if c == old then new.data else [c]))

/-- The function `setNoteIfEmpty` on a record. -/
def setNoteIfEmpty (table : Char → Char) (flow : EnrichedFlow) (note : String) : EnrichedFlow :=
  if flow.Note != "" then flow
  else if TrimSpace note == "" then flow
  else { flow with Note := ReplaceAll (ToLower table (TrimSpace note)) ' ' "_" }

/-- The function `TagAsBadIP`; `none` is the nil pointer. -/
def TagAsBadIP (table : Char → Char) (heap : Heap) : Option Ptr → Heap
  | none => heap
  | some flow =>
    heap.set flow
      (setNoteIfEmpty table { heap flow with Tid := TagIDBadIP, Inlist := true } "bad_ip")

/-- The function `TagWithID`; `none` is the nil pointer. -/
def TagWithID (table : Char → Char) (heap : Heap) (flow : Option Ptr) (tagID : Nat)
    (note : String) : Heap :=
  match flow with
  | none => heap
  | some p =>
    heap.set p (setNoteIfEmpty table { heap p with Tid := tagID, Inlist := true } note)

/-- The words of the claim on the note: a lowercase, hyphen/underscore-only token, that
is, every rune is a lowercase letter, a digit, `-` or `_`. -/
def isNoteToken (s : String) : Bool :=
  s.data.all (fun c => c.isLower || c.isDigit || c == '-' || c == '_')

/-! ## Construction of the segments `influx` and `snmpinterface` -/

/-- The loop of `strings.Split` for a one-rune separator: `acc` holds, reversed, the
runes of the piece being read. -/
def splitRunes (sep : Char) : List Char → List Char → List (List Char)
  | acc, [] => [acc.reverse]
  | acc, c :: cs =>
    if c == sep then acc.reverse :: splitRunes sep [] cs else splitRunes sep (c :: acc) cs

/-- The function `strings.Split` for a one-rune separator. -/
def Split (s : String) (sep : Char) : List String :=
  (splitRunes sep [] s.data).map String.mk

/-- The struct `Influx`. -/
structure Influx where
  Address : String
  Org : String
  Bucket : String
  Token : String
  Tags : List String
  Fields : List String
  deriving DecidableEq, Repr

/-- The method `Influx.New`; `none` is the nil segment. The parameter `hasField` tells
whether `pb.EnrichedFlow` has a field of a given name (`FieldByName`). An address
that `url.Parse` rejects is logged and kept. -/
def Influx.New (hasField : String → Bool) (config : StrMap) : Option Influx :=
  let address :=
    if config.get "address" != "" then config.get "address" else "http://127.0.0.1:8086"
  if config.get "org" == "" then none
  else if config.get "bucket" == "" then none
  else if config.get "token" == "" then none
  else
    let tags : Option (List String) :=
      if config.get "tags" == "" then some ["ProtoName"]
      else if (Split (config.get "tags") ',').all (fun tagname => hasField (TrimSpace tagname))
        then some (Split (config.get "tags") ',')
      else none
    match tags with
    | none => none
    | some tags =>
      let fields : Option (List String) :=
        if config.get "fields" == "" then some ["Bytes", "Packets"]
        else if (Split (config.get "fields") ',').all hasField
          then some (Split (config.get "fields") ',')
        else none
      match fields with
      | none => none
      | some fields =>
        some { Address := address, Org := config.get "org", Bucket := config.get "bucket",
               Token := config.get "token", Tags := tags, Fields := fields }

/-- The call `strconv.ParseUint(s, 10, 32)`; `none` when it returns an error (empty
text, a rune that is not a decimal digit, or a value above `2^32 - 1`). -/
def ParseUint32 (s : String) : Option Nat :=
  if s.data.isEmpty then none
  else if s.data.all Char.isDigit then
    (if s.data.foldl (fun n c => 10 * n + (c.toNat - '0'.toNat)) 0 < 2 ^ 32 then
      some (s.data.foldl (fun n c => 10 * n + (c.toNat - '0'.toNat)) 0)
    else none)
  else none

/-- The method `SNMPInterface.New`; `none` is the nil segment. The parameter `compiles`
tells whether `regexp.Compile` accepts a pattern. -/
def SNMPInterface.New (compiles : String → Bool) (config : StrMap) : Option SNMPInterface :=
  let connLimit : Option Nat :=
    if config.get "connlimit" != "" then
      match ParseUint32 (config.get "connlimit") with
      | some parsedConnLimit => if parsedConnLimit == 0 then none else some parsedConnLimit
      | none => some 16
    else some 16
  match connLimit with
  | none => none
  | some connLimit =>
    let community := if config.get "community" != "" then config.get "community" else "public"
    let regex := if config.get "regex" != "" then config.get "regex" else "^(.*)$"
    if compiles regex then
      some { Community := community, Regex := regex, ConnLimit := connLimit }
    else none

/-! ## The reader task of `StdIn.Run` -/

/-- What one turn of the reader loop sees of the scanner: the result of `Scan()`,
whether `Err()` is non-nil, and `Text()`. -/
structure ScanStep where
  scan : Bool
  err : Bool := false
  text : String
  deriving DecidableEq, Repr

/-- What the reader task does that others can observe. -/
inductive ReaderEvent
  /-- The send `fromStdin <- line`. -/
  | sendLine (line : String)
  /-- The call `segment.ShutdownParentPipeline()`. -/
  | shutdownParent
  deriving DecidableEq, Repr

/-- The anonymous task started by `StdIn.Run`, over the turns of its loop: a turn with
a scanner error is skipped, end of input shuts the pipeline down and ends the task
when `EofCloses` is set, an empty text is skipped, and any other text is sent. -/
def StdIn.reader (eofCloses : Bool) : List ScanStep → List ReaderEvent
  | [] => []
  | step :: rest =>
    if step.err then StdIn.reader eofCloses rest
    else if eofCloses && !step.scan then [ReaderEvent.shutdownParent]
    else if step.text.data.length == 0 then StdIn.reader eofCloses rest
    else ReaderEvent.sendLine step.text :: StdIn.reader eofCloses rest

/-- The lines the reader task sends, in order. -/
def linesSent (t : List ReaderEvent) : List String :=
  t.filterMap (fun e => match e with
    | ReaderEvent.sendLine line => some line
    | ReaderEvent.shutdownParent => none)

/-- The lines the select loop of `StdIn.Run` receives before it sees `In` closed. -/
def receivedLines : List SelectCase → List String
  | [] => []
  | SelectCase.recvIn none :: _ => []
  | SelectCase.recvIn (some _) :: rest => receivedLines rest
  | SelectCase.recvLine line :: rest => line :: receivedLines rest

/-- The turns of the reader loop up to the one, if any, at which it ends the task. -/
def turnsBeforeShutdown (eofCloses : Bool) (steps : List ScanStep) : List ScanStep :=
  steps.takeWhile (fun step => !(!step.err && eofCloses && !step.scan))

/-- The records that `StdIn.Run` made from lines, in the order sent: the records behind
the pointers sent on `Out` that it allocated itself, from address `next` on. -/
def flowsFromLines (next : Ptr) (r : List Event × Heap) : List EnrichedFlow :=
  ((outSent r.1).filter (fun p => next ≤ p)).map r.2

/-! ## Environments of `SNMPInterface.Run` used in concrete statements -/

/-- A cache in which every entry has the dynamic type that `fetchInterfaceData` asserts
for its key. -/
def CacheWellTyped (cache : SNMPCache) : Prop :=
  ∀ (router : String) (iface : Nat) (key : String),
    entryWellTyped key (cache (cacheKey router iface key)) = true

/-- An environment in which no query task ever answers: the cache is only written by
`fetchInterfaceData` itself; the keys are visited in the order `name`, `speed`, `desc`. -/
def quietLib : SNMPLib where
  ipString := fun _ => "<nil>"
  FindStringSubmatch := fun _ => []
  order := fun _ => ["name", "speed", "desc"]
  tasks := fun _ cache => cache

/-- An environment in which, after the first call of `fetchInterfaceData`, the task that
queried the name of interface 1 has stored an answer of dynamic type `uint64`; the
keys are visited in the order `name`, `speed`, `desc`. -/
def mistypedNameLib : SNMPLib where
  ipString := fun _ => "<nil>"
  FindStringSubmatch := fun _ => []
  order := fun _ => ["name", "speed", "desc"]
  tasks := fun n cache =>
    if n = 0 then cache
    else fun k => if k = cacheKey "<nil>" 1 "name" then some (CacheValue.u64 7) else cache k

/-- A cache in which, for interface 3 of the router `10.0.0.1`, the name is known and
the speed is being queried. -/
def nameKnownCache : SNMPCache :=
  fun k =>
    if k = cacheKey "10.0.0.1" 3 "name" then some (CacheValue.str "eth0")
    else if k = cacheKey "10.0.0.1" 3 "speed" then some CacheValue.nil
    else none

/-- A cache in which, for interface 3 of the router `10.0.0.1`, the speed is being
queried and the answer stored for the name is a `uint64`. -/
def mistypedNameCache : SNMPCache :=
  fun k =>
    if k = cacheKey "10.0.0.1" 3 "name" then some (CacheValue.u64 7)
    else if k = cacheKey "10.0.0.1" 3 "speed" then some CacheValue.nil
    else none

end Flowpipeline

namespace Flowpipeline

/-! ## Lemmas on traces -/

theorem outSent_append (a b : List Event) : outSent (a ++ b) = outSent a ++ outSent b := by
  simp [outSent, List.filterMap_append]

theorem dropsSent_append (a b : List Event) : dropsSent (a ++ b) = dropsSent a ++ dropsSent b := by
  simp [dropsSent, List.filterMap_append]

theorem outSent_cons_sendOut (p : Ptr) (t : List Event) :
    outSent (Event.sendOut p :: t) = p :: outSent t := by
  simp [outSent, List.filterMap_cons]

theorem flowFilter_loop_outSent {Expr : Type} (lib : FilterLib Expr) (segment : FlowFilter Expr)
    (heap : Heap) (input : List Ptr) :
    outSent (FlowFilter.loop lib segment heap input) =
      input.filter (fun msg => (lib.CheckFlow segment.useTid segment.expression (heap msg)).1) := by
  induction input with
  | nil => simp [FlowFilter.loop, outSent]
  | cons msg rest ih =>
    rw [FlowFilter.loop, outSent_append, ih, List.filter_cons]
    cases hm : (lib.CheckFlow segment.useTid segment.expression (heap msg)).1 <;>
      cases hd : segment.Drops <;> simp [outSent]

theorem flowFilter_loop_dropsSent {Expr : Type} (lib : FilterLib Expr)
    (segment : FlowFilter Expr) (heap : Heap) (input : List Ptr) :
    dropsSent (FlowFilter.loop lib segment heap input) =
      if segment.Drops.isSome then
        input.filter (fun msg => !(lib.CheckFlow segment.useTid segment.expression (heap msg)).1)
      else [] := by
  induction input with
  | nil => simp [FlowFilter.loop, dropsSent]
  | cons msg rest ih =>
    rw [FlowFilter.loop, dropsSent_append, ih, List.filter_cons]
    cases hm : (lib.CheckFlow segment.useTid segment.expression (heap msg)).1 <;>
      cases hd : segment.Drops <;> simp [dropsSent]

theorem flowFilter_loop_no_close {Expr : Type} (lib : FilterLib Expr)
    (segment : FlowFilter Expr) (heap : Heap) (input : List Ptr) :
    Event.closeOut ∉ FlowFilter.loop lib segment heap input ∧
      Event.wgDone ∉ FlowFilter.loop lib segment heap input := by
  induction input with
  | nil => simp [FlowFilter.loop]
  | cons msg rest ih =>
    rw [FlowFilter.loop]
    cases hm : (lib.CheckFlow segment.useTid segment.expression (heap msg)).1 <;>
      cases hd : segment.Drops <;> simp [ih]

theorem matching_loop_outSent (ipString : List Nat → String) (csv : StrMap) (heap : Heap)
    (input : List Ptr) :
    outSent (MatchingSegment.loop ipString csv heap input).1 = input := by
  induction input generalizing heap with
  | nil => simp [MatchingSegment.loop, outSent]
  | cons msg rest ih => simp [MatchingSegment.loop, outSent_cons_sendOut, ih]

theorem matching_loop_no_close (ipString : List Nat → String) (csv : StrMap) (heap : Heap)
    (input : List Ptr) :
    Event.closeOut ∉ (MatchingSegment.loop ipString csv heap input).1 ∧
      Event.wgDone ∉ (MatchingSegment.loop ipString csv heap input).1 := by
  induction input generalizing heap with
  | nil => simp [MatchingSegment.loop]
  | cons msg rest ih => simp [MatchingSegment.loop, ih]

theorem snmp_enrich_outcome (lib : SNMPLib) (st : SNMPState) (heap : Heap) (msg : Ptr) :
    (SNMPInterface.enrich lib st heap msg).1 = Outcome.returned ∨
      (SNMPInterface.enrich lib st heap msg).1 = Outcome.panicked := by
  unfold SNMPInterface.enrich
  simp only []
  split_ifs <;> (repeat' split) <;> simp_all

theorem snmp_loop_trace (lib : SNMPLib) (input : List Ptr) :
    ∀ (st : SNMPState) (heap : Heap),
      Event.closeOut ∉ (SNMPInterface.loop lib st heap input).1.1 ∧
        Event.wgDone ∉ (SNMPInterface.loop lib st heap input).1.1 ∧
        ((SNMPInterface.loop lib st heap input).1.2 = Outcome.returned ∨
          (SNMPInterface.loop lib st heap input).1.2 = Outcome.panicked) ∧
        ((SNMPInterface.loop lib st heap input).1.2 = Outcome.returned →
          outSent (SNMPInterface.loop lib st heap input).1.1 = input) ∧
        ((SNMPInterface.loop lib st heap input).1.2 = Outcome.panicked →
          (outSent (SNMPInterface.loop lib st heap input).1.1).length < input.length) ∧
        outSent (SNMPInterface.loop lib st heap input).1.1 <+: input := by
  induction input with
  | nil => intro st heap; simp [SNMPInterface.loop, outSent]
  | cons msg rest ih =>
    intro st heap
    have ho := snmp_enrich_outcome lib st heap msg
    rcases he : SNMPInterface.enrich lib st heap msg with ⟨o, st1, heap1⟩
    rw [he] at ho
    simp only at ho
    rcases ho with ho | ho
    · subst ho
      have h := ih st1 heap1
      simp only [SNMPInterface.loop, he, outSent_cons_sendOut, List.length_cons]
      refine ⟨by simp [h.1], by simp [h.2.1], h.2.2.1, ?_, ?_, ?_⟩
      · intro hr; rw [h.2.2.2.1 hr]
      · intro hp; have := h.2.2.2.2.1 hp; omega
      · exact (List.prefix_cons_inj msg).mpr h.2.2.2.2.2
    · subst ho
      simp [SNMPInterface.loop, he, outSent]

theorem fetchLoop_cache_cases (router : String) (iface : Nat) (keys : List String) :
    ∀ (st : FetchState) (q : String),
      (SNMPInterface.fetchLoop router iface keys st).2.1 q = some CacheValue.nil ∨
        (SNMPInterface.fetchLoop router iface keys st).2.1 q = st.cache q := by
  induction keys with
  | nil => intro st q; right; rfl
  | cons key rest ih =>
    intro st q
    unfold SNMPInterface.fetchLoop
    split
    · right; rfl
    · split_ifs <;> first | exact ih _ q | (split <;> first | (right; rfl) | exact ih _ q)
    · rcases ih { st with
          cache := st.cache.Set (cacheKey router iface key) CacheValue.nil,
          spawned := st.spawned ++ [key] } q with h | h
      · left; exact h
      · simp only [SNMPCache.Set] at h
        split_ifs at h
        · left; exact h
        · right; exact h

theorem fetchLoop_no_panic (router : String) (iface : Nat) (keys : List String) :
    ∀ (st : FetchState),
      (∀ key, entryWellTyped key (st.cache (cacheKey router iface key)) = true) →
      (SNMPInterface.fetchLoop router iface keys st).1 ≠ FetchResult.panicked := by
  induction keys with
  | nil => intro st _; simp [SNMPInterface.fetchLoop]
  | cons key rest ih =>
    intro st hwt
    have hwtk := hwt key
    cases hc : st.cache (cacheKey router iface key) with
    | none =>
      rw [SNMPInterface.fetchLoop]
      simp only [hc]
      apply ih
      intro k2
      simp only [SNMPCache.Set]
      split_ifs
      · rfl
      · exact hwt k2
    | some v =>
      rw [hc] at hwtk
      cases v with
      | nil =>
        rw [SNMPInterface.fetchLoop]
        simp [hc]
      | str s =>
        simp only [entryWellTyped, bne_iff_ne, ne_eq] at hwtk
        rw [SNMPInterface.fetchLoop]
        simp only [hc]
        split_ifs <;> first | exact ih _ hwt | (simp_all)
      | u64 n =>
        simp only [entryWellTyped, bne_iff_ne, ne_eq, Bool.and_eq_true,
          Bool.not_eq_true', beq_eq_false_iff_ne, decide_eq_true_eq] at hwtk
        rw [SNMPInterface.fetchLoop]
        simp only [hc]
        split_ifs <;> first | exact ih _ hwt | (simp_all)
      | other =>
        simp only [entryWellTyped, bne_iff_ne, ne_eq, Bool.and_eq_true,
          Bool.not_eq_true', beq_eq_false_iff_ne, decide_eq_true_eq] at hwtk
        rw [SNMPInterface.fetchLoop]
        simp only [hc]
        split_ifs <;> first | exact ih _ hwt | (simp_all)

theorem snmp_fetch_wellTyped (lib : SNMPLib) (st : SNMPState) (router : String) (iface : Nat)
    (htasks : ∀ n c, CacheWellTyped c → CacheWellTyped (lib.tasks n c))
    (hst : CacheWellTyped st.cache) :
    (SNMPInterface.fetch lib st router iface).1 ≠ FetchResult.panicked ∧
      CacheWellTyped (SNMPInterface.fetch lib st router iface).2.cache := by
  have hw := htasks st.calls st.cache hst
  constructor
  · exact fetchLoop_no_panic router iface _ { cache := lib.tasks st.calls st.cache }
      (fun key => hw router iface key)
  · intro r i k
    simp only [SNMPInterface.fetch, SNMPInterface.fetchInterfaceData]
    rcases fetchLoop_cache_cases router iface (lib.order st.calls)
      { cache := lib.tasks st.calls st.cache } (cacheKey r i k) with h | h
    · rw [h]; rfl
    · rw [h]; exact hw r i k

theorem snmp_enrich_wellTyped (lib : SNMPLib) (st : SNMPState) (heap : Heap) (msg : Ptr)
    (htasks : ∀ n c, CacheWellTyped c → CacheWellTyped (lib.tasks n c))
    (hst : CacheWellTyped st.cache) :
    (SNMPInterface.enrich lib st heap msg).1 = Outcome.returned ∧
      CacheWellTyped (SNMPInterface.enrich lib st heap msg).2.1.cache := by
  unfold SNMPInterface.enrich
  simp only []
  by_cases h1 : (heap msg).InIf > 0
  · have f1 := snmp_fetch_wellTyped lib st (lib.ipString (heap msg).SamplerAddress)
      (heap msg).InIf htasks hst
    rcases hf : SNMPInterface.fetch lib st (lib.ipString (heap msg).SamplerAddress)
      (heap msg).InIf with ⟨r1, st1⟩
    rw [hf] at f1
    cases r1 with
    | panicked => exact absurd rfl f1.1
    | returned name desc speed =>
      simp only [h1, if_true]
      split_ifs with h2
      · have f2 := snmp_fetch_wellTyped lib st1 (lib.ipString (heap msg).SamplerAddress)
          ((heap.set msg { heap msg with
            SrcIfName := name, SrcIfDesc := SNMPInterface.cleanDesc lib desc,
            SrcIfSpeed := speed }) msg).OutIf htasks f1.2
        rcases hf2 : SNMPInterface.fetch lib st1 (lib.ipString (heap msg).SamplerAddress)
          ((heap.set msg { heap msg with
            SrcIfName := name, SrcIfDesc := SNMPInterface.cleanDesc lib desc,
            SrcIfSpeed := speed }) msg).OutIf with ⟨r2, st2⟩
        rw [hf2] at f2
        cases r2 with
        | panicked => exact absurd rfl f2.1
        | returned n2 d2 s2 => exact ⟨rfl, f2.2⟩
      · exact ⟨rfl, f1.2⟩
  · simp only [h1, if_false]
    split_ifs with h2
    · have f2 := snmp_fetch_wellTyped lib st (lib.ipString (heap msg).SamplerAddress)
        (heap msg).OutIf htasks hst
      rcases hf2 : SNMPInterface.fetch lib st (lib.ipString (heap msg).SamplerAddress)
        (heap msg).OutIf with ⟨r2, st2⟩
      rw [hf2] at f2
      cases r2 with
      | panicked => exact absurd rfl f2.1
      | returned n2 d2 s2 => exact ⟨rfl, f2.2⟩
    · exact ⟨rfl, hst⟩

theorem snmp_loop_wellTyped (lib : SNMPLib) (input : List Ptr)
    (htasks : ∀ n c, CacheWellTyped c → CacheWellTyped (lib.tasks n c)) :
    ∀ (st : SNMPState) (heap : Heap), CacheWellTyped st.cache →
      (SNMPInterface.loop lib st heap input).1.2 = Outcome.returned := by
  induction input with
  | nil => intro st heap _; rfl
  | cons msg rest ih =>
    intro st heap hst
    have he := snmp_enrich_wellTyped lib st heap msg htasks hst
    rcases hr : SNMPInterface.enrich lib st heap msg with ⟨o, st1, heap1⟩
    rw [hr] at he
    simp only at he
    obtain ⟨ho, hw⟩ := he
    subst ho
    simp only [SNMPInterface.loop, hr]
    exact ih st1 heap1 hw

theorem influx_loop_outSent (createPoint : EnrichedFlow → Bool) (heap : Heap)
    (input : List Ptr) :
    outSent (Influx.loop createPoint heap input) = input := by
  induction input with
  | nil => simp [Influx.loop, outSent]
  | cons msg rest ih =>
    rw [Influx.loop, outSent_append, ih]
    cases createPoint (heap msg) <;> simp [outSent]

theorem influx_loop_no_close (createPoint : EnrichedFlow → Bool) (heap : Heap)
    (input : List Ptr) :
    Event.closeOut ∉ Influx.loop createPoint heap input ∧
      Event.wgDone ∉ Influx.loop createPoint heap input := by
  induction input with
  | nil => simp [Influx.loop]
  | cons msg rest ih =>
    rw [Influx.loop]
    cases createPoint (heap msg) <;> simp [ih]

theorem stdin_loop_no_close (unmarshal : String → Option EnrichedFlow) (next : Ptr)
    (heap : Heap) (turns : List SelectCase) :
    Event.closeOut ∉ (StdIn.loop unmarshal next heap turns).1.1 ∧
      Event.wgDone ∉ (StdIn.loop unmarshal next heap turns).1.1 := by
  induction turns generalizing next heap with
  | nil => simp [StdIn.loop]
  | cons t rest ih =>
    cases t with
    | recvIn msg =>
      cases msg with
      | none => simp [StdIn.loop]
      | some p => simp [StdIn.loop, ih]
    | recvLine line =>
      cases hu : unmarshal line <;> simp [StdIn.loop, hu, ih]

theorem stdin_loop_returns_iff (unmarshal : String → Option EnrichedFlow) (next : Ptr)
    (heap : Heap) (turns : List SelectCase) :
    (StdIn.loop unmarshal next heap turns).1.2 = true ↔ SelectCase.recvIn none ∈ turns := by
  induction turns generalizing next heap with
  | nil => simp [StdIn.loop]
  | cons t rest ih =>
    cases t with
    | recvIn msg =>
      cases msg with
      | none => simp [StdIn.loop]
      | some p => simp [StdIn.loop, ih]
    | recvLine line =>
      cases hu : unmarshal line <;> simp [StdIn.loop, hu, ih]

theorem closesOutOnExit_of_body (body tail : List Event)
    (h1 : Event.closeOut ∉ body) (h2 : Event.wgDone ∉ body)
    (h3 : Event.closeOut ∉ tail) (h4 : Event.wgDone ∉ tail)
    (h5 : outSent tail = []) (h6 : dropsSent tail = []) :
    ClosesOutOnExit (body ++ Event.closeOut :: (tail ++ [Event.wgDone])) :=
  ⟨body, tail, rfl, h1, h2, h3, h4, h5, h6⟩

end Flowpipeline

namespace Flowpipeline

/-! ## Claims on the data path -/

/-- C1: for every input sequence and every filter expression, `FlowFilter.Run` sends on
`Out` exactly the records for which `CheckFlow` reports a match, in input order and
each once; the other records go to `Drops`, in input order, when `Drops` is non-nil
and nowhere when it is nil; every record sent on `Out` is a matching one. -/
theorem flowFilter_run_out_and_drops {Expr : Type} (lib : FilterLib Expr)
    (segment : FlowFilter Expr) (heap : Heap) (input : List Ptr) :
    outSent (FlowFilter.Run lib segment heap input) =
        input.filter (fun msg => (lib.CheckFlow segment.useTid segment.expression (heap msg)).1) ∧
      dropsSent (FlowFilter.Run lib segment heap input) =
        (if segment.Drops.isSome then
          input.filter (fun msg =>
            !(lib.CheckFlow segment.useTid segment.expression (heap msg)).1)
        else []) ∧
      ∀ p ∈ outSent (FlowFilter.Run lib segment heap input),
        (lib.CheckFlow segment.useTid segment.expression (heap p)).1 = true := by
  have hout : outSent (FlowFilter.Run lib segment heap input) =
      input.filter (fun msg => (lib.CheckFlow segment.useTid segment.expression (heap msg)).1) := by
    simp [FlowFilter.Run, withDefer, outSent_append, flowFilter_loop_outSent]
    simp [outSent]
  refine ⟨hout, ?_, ?_⟩
  · simp only [FlowFilter.Run, withDefer, dropsSent_append, flowFilter_loop_dropsSent]
    simp [dropsSent]
  · intro p hp
    rw [hout] at hp
    exact (List.mem_filter.mp hp).2

/-- C2, amended: `MatchingSegment.Run` sends on `Out` exactly the records received, each
once and in order, when the IP list loads, and nothing when it does not;
`SNMPInterface.Run` always sends a prefix of the records received, and sends all of
them exactly when no call of `fetchInterfaceData` panics, which is the case whenever
the query tasks keep every cached value of the type the code asserts; `Influx.Run`
always sends exactly the records received, each once and in order. -/
theorem nonfilter_segments_forward_every_record (ipString : List Nat → String)
    (fs : String → IPListFile) (m : MatchingSegment) (lib : SNMPLib)
    (createPoint : EnrichedFlow → Bool) (heap : Heap) (input : List Ptr) :
    outSent (MatchingSegment.Run ipString fs m heap input).1 =
        (if (fs m.ipListPath).loads then input else []) ∧
      outSent (SNMPInterface.Run lib heap input).1.1 <+: input ∧
      (outSent (SNMPInterface.Run lib heap input).1.1 = input ↔
        (SNMPInterface.Run lib heap input).1.2 = Outcome.returned) ∧
      ((∀ n c, CacheWellTyped c → CacheWellTyped (lib.tasks n c)) →
        (SNMPInterface.Run lib heap input).1.2 = Outcome.returned) ∧
      outSent (Influx.Run createPoint heap input) = input := by
  have hd : outSent [Event.closeOut, Event.wgDone] = [] := rfl
  have ht := snmp_loop_trace lib input { cache := fun _ => none } heap
  have hrun : outSent (SNMPInterface.Run lib heap input).1.1 =
      outSent (SNMPInterface.loop lib { cache := fun _ => none } heap input).1.1 := by
    rcases ht.2.2.1 with h | h <;>
      simp [SNMPInterface.Run, withDefer, h, outSent_append, hd]
  have hout : (SNMPInterface.Run lib heap input).1.2 =
      (SNMPInterface.loop lib { cache := fun _ => none } heap input).1.2 := rfl
  refine ⟨?_, ?_, ?_, ?_, ?_⟩
  · cases ho : (fs m.ipListPath).openFails <;> cases hs : (fs m.ipListPath).scanFails <;>
      cases hc : (fs m.ipListPath).closeFails <;>
      simp [IPListFile.loads, ho, hs, hc, MatchingSegment.Run, MatchingSegment.body, withDefer,
        outSent_append, outSent, hd]
    exact matching_loop_outSent _ _ _ _
  · rw [hrun]; exact ht.2.2.2.2.2
  · rw [hrun, hout]
    constructor
    · intro heq
      rcases ht.2.2.1 with h | h
      · exact h
      · have := ht.2.2.2.2.1 h
        rw [heq] at this
        exact absurd this (Nat.lt_irrefl _)
    · exact ht.2.2.2.1
  · intro htasks
    rw [hout]
    exact snmp_loop_wellTyped lib input htasks { cache := fun _ => none } heap
      (fun _ _ _ => rfl)
  · simp [Influx.Run, withDefer, outSent_append]
    simp [outSent]
    exact influx_loop_outSent _ _ _

end Flowpipeline

namespace Flowpipeline

/-- C2, as stated, fails: with a list file that cannot be opened `MatchingSegment.Run`
sends none of the two records it is given; and `SNMPInterface.Run`, given two records
for interface 1, sends the first and panics on the second, because the answer to the
name query that reached the cache in between is a `uint64`. -/
theorem nonfilter_segments_can_drop_records :
    outSent (MatchingSegment.Run (fun _ => "<nil>") (fun _ => { openFails := true })
        { ipListPath := "missing.txt" } (fun _ => {}) [0, 1]).1 = [] ∧
      outSent (SNMPInterface.Run mistypedNameLib (fun _ => { InIf := 1 }) [0, 1]).1.1 = [0] ∧
      (SNMPInterface.Run mistypedNameLib (fun _ => { InIf := 1 }) [0, 1]).1.2 =
        Outcome.panicked := by
  refine ⟨by decide, by decide, by decide⟩

/-- C3: for every sequence of records fed into a pipeline whose only segment is `pass`,
`Out` yields the same records in the same order (so the same number of them) and no
record is modified; a record with Type 3 comes out with Type 3. -/
theorem pass_pipeline_is_identity (heap : Heap) (input : List Ptr) :
    (Pipeline.run [Pass.stage] heap input).1 = input ∧
      (Pipeline.run [Pass.stage] heap input).2 = heap ∧
      (Pipeline.run [Pass.stage] heap input).1.length = input.length ∧
      (Pipeline.run [Pass.stage] (fun _ => { Type_ := 3 }) [0]).1.map
        (fun p => ((Pipeline.run [Pass.stage] (fun _ => { Type_ := 3 }) [0]).2 p).Type_) = [3] := by
  have h : ∀ (hp : Heap) (l : List Ptr), Pipeline.run [Pass.stage] hp l = (l, hp) := by
    intro hp l
    simp only [Pipeline.run, Pass.stage, Pass.Run, withDefer, outSent_append]
    have h1 : outSent (l.map Event.sendOut) = l := by
      induction l with
      | nil => rfl
      | cons a t ih => simp only [List.map_cons, outSent_cons_sendOut, ih]
    have h2 : outSent [Event.closeOut, Event.wgDone] = [] := rfl
    rw [h1, h2, List.append_nil]
  refine ⟨by rw [h], by rw [h], by rw [h], ?_⟩
  rw [h]
  rfl

/-- C4: in a branch whose `if` is a flowfilter predicate, whose `then` drops `InIf` and
whose `else` drops `OutIf`, every input record yields exactly one output record, the
input with `InIf` zeroed when the predicate matches and with `OutIf` zeroed when it
does not; outputs are as many as inputs; under `proto tcp`, (6,1,1) gives (6,0,1)
and (42,1,1) gives (42,1,0). -/
theorem branch_flowfilter_dropfields {Expr : Type} (lib : FilterLib Expr)
    (segment : FlowFilter Expr) (heap : Heap) (r : Ptr) (input : List Ptr) :
    Branch.route [FlowFilter.stage lib segment] [DropFields.stage ["InIf"]]
        [DropFields.stage ["OutIf"]] heap r =
      ([r], heap.set r
        (if (lib.CheckFlow segment.useTid segment.expression (heap r)).1 then
          { heap r with InIf := 0 } else { heap r with OutIf := 0 })) ∧
      (Branch.stage [FlowFilter.stage lib segment] [DropFields.stage ["InIf"]]
        [DropFields.stage ["OutIf"]] heap input).1.length = input.length ∧
      ((Branch.route [FlowFilter.stage protoTcpLib protoTcpSegment]
            [DropFields.stage ["InIf"]] [DropFields.stage ["OutIf"]]
          (fun _ => { Proto := 6, InIf := 1, OutIf := 1 }) 0).2 0 =
        { Proto := 6, InIf := 0, OutIf := 1 }) ∧
      ((Branch.route [FlowFilter.stage protoTcpLib protoTcpSegment]
            [DropFields.stage ["InIf"]] [DropFields.stage ["OutIf"]]
          (fun _ => { Proto := 42, InIf := 1, OutIf := 1 }) 0).2 0 =
        { Proto := 42, InIf := 1, OutIf := 0 }) := by
  have hroute : ∀ (lb : FilterLib Expr) (sg : FlowFilter Expr) (hp : Heap) (q : Ptr),
      Branch.route [FlowFilter.stage lb sg] [DropFields.stage ["InIf"]]
        [DropFields.stage ["OutIf"]] hp q =
      ([q], hp.set q
        (if (lb.CheckFlow sg.useTid sg.expression (hp q)).1 then
          { hp q with InIf := 0 } else { hp q with OutIf := 0 })) := by
    intro lb sg hp q
    have hf : outSent (FlowFilter.Run lb sg hp [q]) =
        [q].filter (fun msg => (lb.CheckFlow sg.useTid sg.expression (hp msg)).1) := by
      simp only [FlowFilter.Run, withDefer, outSent_append, flowFilter_loop_outSent]
      simp [outSent]
    cases hm : (lb.CheckFlow sg.useTid sg.expression (hp q)).1
    · simp [Branch.route, Pipeline.run, FlowFilter.stage, hf, hm, DropFields.stage, dropField]
    · simp [Branch.route, Pipeline.run, FlowFilter.stage, hf, hm, DropFields.stage, dropField]
  refine ⟨hroute lib segment heap r, ?_, ?_, ?_⟩
  · induction input generalizing heap with
    | nil => simp [Branch.stage]
    | cons a t ih =>
      simp only [Branch.stage, List.length_append, hroute, List.length_cons, List.length_nil,
        ih]
      omega
  · rfl
  · rfl

end Flowpipeline

namespace Flowpipeline

/-! ## Claims on closing `Out` -/

/-- C5: once the input is closed and drained (for `matching`, after the list has loaded;
for `stdin`, once a turn of the select sees `In` closed), each of `FlowFilter.Run`,
`SNMPInterface.Run`, `Influx.Run`, `MatchingSegment.Run` and `StdIn.Run` closes `Out`
exactly once, after its last send, and signals the wait group last; and `StdIn.Run`
closes `Out` only when it has seen `In` closed. -/
theorem run_closes_out_once_on_exit {Expr : Type} (flib : FilterLib Expr)
    (segment : FlowFilter Expr) (slib : SNMPLib)
    (createPoint : EnrichedFlow → Bool) (ipString : List Nat → String)
    (fs : String → IPListFile) (m : MatchingSegment)
    (unmarshal : String → Option EnrichedFlow) (next : Ptr) (heap : Heap)
    (input : List Ptr) (turns : List SelectCase)
    (hload : (fs m.ipListPath).loads = true)
    (hclosed : SelectCase.recvIn none ∈ turns) :
    ClosesOutOnExit (FlowFilter.Run flib segment heap input) ∧
      ClosesOutOnExit (SNMPInterface.Run slib heap input).1.1 ∧
      ClosesOutOnExit (Influx.Run createPoint heap input) ∧
      ClosesOutOnExit (MatchingSegment.Run ipString fs m heap input).1 ∧
      ClosesOutOnExit (StdIn.Run unmarshal next heap turns).1 ∧
      ∀ others : List SelectCase,
        Event.closeOut ∈ (StdIn.Run unmarshal next heap others).1 →
          SelectCase.recvIn none ∈ others := by
  refine ⟨?_, ?_, ?_, ?_, ?_, ?_⟩
  · have h := flowFilter_loop_no_close flib segment heap input
    exact closesOutOnExit_of_body _ [] h.1 h.2 (by simp) (by simp) rfl rfl
  · have h := snmp_loop_trace slib input { cache := fun _ => none } heap
    have e : (SNMPInterface.Run slib heap input).1.1 =
        (SNMPInterface.loop slib { cache := fun _ => none } heap input).1.1 ++
          Event.closeOut :: ([] ++ [Event.wgDone]) := by
      rcases h.2.2.1 with ho | ho <;> simp [SNMPInterface.Run, withDefer, ho]
    rw [e]
    exact closesOutOnExit_of_body _ [] h.1 h.2.1 (by simp) (by simp) rfl rfl
  · have h := influx_loop_no_close createPoint heap input
    exact closesOutOnExit_of_body (Event.connectorInit :: Influx.loop createPoint heap input)
      [Event.flush, Event.clientClose] (by simp [h.1]) (by simp [h.2]) (by simp) (by simp)
      rfl rfl
  · simp only [IPListFile.loads, Bool.and_eq_true, Bool.not_eq_true'] at hload
    obtain ⟨⟨ho, hs⟩, hc⟩ := hload
    have h := matching_loop_no_close ipString
      (MatchingSegment.loadLines m.CSVData (fs m.ipListPath).lines) heap input
    have e : (MatchingSegment.Run ipString fs m heap input).1 =
        (Event.fileClose :: (MatchingSegment.loop ipString
          (MatchingSegment.loadLines m.CSVData (fs m.ipListPath).lines) heap input).1) ++
          Event.closeOut :: ([] ++ [Event.wgDone]) := by
      simp [MatchingSegment.Run, MatchingSegment.body, ho, hs, hc, withDefer]
    rw [e]
    exact closesOutOnExit_of_body _ [] (by simp [h.1]) (by simp [h.2]) (by simp) (by simp)
      rfl rfl
  · have h := stdin_loop_no_close unmarshal next heap turns
    have hr := (stdin_loop_returns_iff unmarshal next heap turns).mpr hclosed
    have e : (StdIn.Run unmarshal next heap turns).1 =
        (StdIn.loop unmarshal next heap turns).1.1 ++
          Event.closeOut :: ([] ++ [Event.wgDone]) := by
      simp [StdIn.Run, hr]
    rw [e]
    exact closesOutOnExit_of_body _ [] h.1 h.2 (by simp) (by simp) rfl rfl
  · intro others hmem
    by_contra hno
    have hr : (StdIn.loop unmarshal next heap others).1.2 = false := by
      cases hb : (StdIn.loop unmarshal next heap others).1.2
      · rfl
      · exact absurd ((stdin_loop_returns_iff unmarshal next heap others).mp hb) hno
    have h := stdin_loop_no_close unmarshal next heap others
    simp [StdIn.Run, hr] at hmem
    exact h.1 hmem

/-- C5, at a concrete input: two records, a list file that loads, and a run of `stdin`
that reads one line before it sees `In` closed. -/
theorem run_closes_out_once_on_exit_witness :
    ClosesOutOnExit (FlowFilter.Run protoTcpLib protoTcpSegment
        (fun p => { Proto := 6 * p }) [0, 1]) ∧
      ClosesOutOnExit (SNMPInterface.Run quietLib (fun p => { Proto := 6 * p }) [0, 1]).1.1 ∧
      ClosesOutOnExit (Influx.Run (fun _ => true) (fun p => { Proto := 6 * p }) [0, 1]) ∧
      ClosesOutOnExit (MatchingSegment.Run (fun _ => "<nil>")
        (fun _ => { lines := ["10.0.0.1"] }) { ipListPath := "bad_ips.txt" }
        (fun p => { Proto := 6 * p }) [0, 1]).1 ∧
      ClosesOutOnExit (StdIn.Run (fun _ => some {}) 2 (fun p => { Proto := 6 * p })
        [SelectCase.recvLine "x", SelectCase.recvIn none]).1 :=
  have h := run_closes_out_once_on_exit protoTcpLib protoTcpSegment quietLib (fun _ => true)
    (fun _ => "<nil>") (fun _ => { lines := ["10.0.0.1"] }) { ipListPath := "bad_ips.txt" }
    (fun _ => some {}) 2 (fun p => { Proto := 6 * p }) [0, 1]
    [SelectCase.recvLine "x", SelectCase.recvIn none] (by decide) (by decide)
  ⟨h.1, h.2.1, h.2.2.1, h.2.2.2.1, h.2.2.2.2.1⟩

/-- C6, as stated, fails: when the list file cannot be opened, `MatchingSegment.Run` ends
in `os.Exit(1)` and never closes `Out`. -/
theorem matching_run_open_failure_leaves_out_open :
    (MatchingSegment.Run (fun _ => "<nil>") (fun _ => { openFails := true })
        { ipListPath := "missing.txt" } (fun _ => {}) [0]).1 = [Event.osExit 1] ∧
      Event.closeOut ∉ (MatchingSegment.Run (fun _ => "<nil>") (fun _ => { openFails := true })
        { ipListPath := "missing.txt" } (fun _ => {}) [0]).1 := by
  constructor
  · rfl
  · decide

/-- C6, amended: when the list file cannot be opened, read or closed, `MatchingSegment.Run`
ends the process with `os.Exit(1)` as its last event, having sent nothing and without
closing `Out` or signalling the wait group; in every other case it returns, and then
it has closed `Out` exactly once, after its last send. -/
theorem matching_run_exit_paths (ipString : List Nat → String) (fs : String → IPListFile)
    (m : MatchingSegment) (heap : Heap) (input : List Ptr) :
    if (fs m.ipListPath).loads then
      ClosesOutOnExit (MatchingSegment.Run ipString fs m heap input).1
    else
      ((MatchingSegment.Run ipString fs m heap input).1.getLast? = some (Event.osExit 1) ∧
        Event.closeOut ∉ (MatchingSegment.Run ipString fs m heap input).1 ∧
        Event.wgDone ∉ (MatchingSegment.Run ipString fs m heap input).1 ∧
        outSent (MatchingSegment.Run ipString fs m heap input).1 = []) := by
  cases ho : (fs m.ipListPath).openFails <;> cases hs : (fs m.ipListPath).scanFails <;>
    cases hc : (fs m.ipListPath).closeFails <;>
    simp [IPListFile.loads, ho, hs, hc, MatchingSegment.Run, MatchingSegment.body, withDefer,
      outSent]
  have h := matching_loop_no_close ipString
    (MatchingSegment.loadLines m.CSVData (fs m.ipListPath).lines) heap input
  have e : Event.fileClose :: ((MatchingSegment.loop ipString
        (MatchingSegment.loadLines m.CSVData (fs m.ipListPath).lines) heap input).1 ++
        [Event.closeOut, Event.wgDone]) =
      (Event.fileClose :: (MatchingSegment.loop ipString
        (MatchingSegment.loadLines m.CSVData (fs m.ipListPath).lines) heap input).1) ++
        Event.closeOut :: ([] ++ [Event.wgDone]) := by simp
  rw [e]
  exact closesOutOnExit_of_body _ [] (by simp [h.1]) (by simp [h.2]) (by simp) (by simp)
    rfl rfl

end Flowpipeline

namespace Flowpipeline

/-! ## Claims on construction -/

/-- C7, on the code: `MatchingSegment.New` returns its receiver, for every store, receiver
and config; called on the zero-value prototype at address 0 with the path `a.txt` and
then with the path `b.txt`, both calls return address 0, the segment returned by the
first call has the path `b.txt` after the second, and the prototype is no longer the
zero value. -/
theorem matching_new_returns_its_receiver :
    (∀ (store : SegStore) (m : Ptr) (config : StrMap),
        (MatchingSegment.New store m config).1 = m) ∧
      (MatchingSegment.New (fun _ => {}) 0 [("ip_list_path", "a.txt")]).1 = 0 ∧
      ((MatchingSegment.New (fun _ => {}) 0 [("ip_list_path", "a.txt")]).2 0).ipListPath =
        "a.txt" ∧
      (MatchingSegment.New (MatchingSegment.New (fun _ => {}) 0 [("ip_list_path", "a.txt")]).2
        0 [("ip_list_path", "b.txt")]).1 = 0 ∧
      ((MatchingSegment.New (MatchingSegment.New (fun _ => {}) 0 [("ip_list_path", "a.txt")]).2
        0 [("ip_list_path", "b.txt")]).2 0).ipListPath = "b.txt" ∧
      (MatchingSegment.New (fun _ => {}) 0 [("ip_list_path", "a.txt")]).2 0 ≠
        ({} : MatchingSegment) := by
  refine ⟨fun _ _ _ => rfl, rfl, ?_, rfl, ?_, ?_⟩ <;> decide

end Flowpipeline

namespace Flowpipeline

/-! ## The tid token: search and rewriting -/

theorem isWordChar_of_fold (a lo up : Char) (hlo : isWordChar lo = true)
    (hup : isWordChar up = true) (h : (a == lo || a == up) = true) : isWordChar a = true := by
  simp only [Bool.or_eq_true, beq_iff_eq] at h
  rcases h with h | h <;> subst h <;> assumption

theorem isWordOpt_some (c : Char) : isWordOpt (some c) = isWordChar c := rfl

theorem matchHere_tidPattern (prev : Option Char) (s : List Char) :
    matchHere tidPattern prev s = if tokenHere prev s then some (3, []) else none := by
  match s with
  | [] => simp [tidPattern, matchHere, tokenHere]
  | [a] =>
    by_cases ha : (a == 't' || a == 'T') = true <;>
      simp [tidPattern, matchHere, tokenHere, ha]
  | [a, b] =>
    by_cases ha : (a == 't' || a == 'T') = true <;>
      by_cases hb : (b == 'i' || b == 'I') = true <;>
      simp [tidPattern, matchHere, tokenHere, ha, hb]
  | a :: b :: c :: rest =>
    by_cases ha : (a == 't' || a == 'T') = true
    · have wa := isWordChar_of_fold a 't' 'T' (by decide) (by decide) ha
      by_cases hb : (b == 'i' || b == 'I') = true
      · by_cases hc : (c == 'd' || c == 'D') = true
        · have wc := isWordChar_of_fold c 'd' 'D' (by decide) (by decide) hc
          cases hp : isWordOpt prev <;> cases hr : isWordOpt rest.head? <;>
            simp [tidPattern, matchHere, tokenHere, ha, hb, hc, atWordBoundary,
              isWordOpt_some, wa, wc, hp, hr]
        · simp [tidPattern, matchHere, tokenHere, ha, hb, hc]
      · simp [tidPattern, matchHere, tokenHere, ha, hb]
    · simp [tidPattern, matchHere, tokenHere, ha]

theorem matchHere_tidCapturePattern (prev : Option Char) (s : List Char) :
    matchHere tidCapturePattern prev s =
      if tokenHere prev s then some (3, [[], []]) else none := by
  match s with
  | [] => simp [tidCapturePattern, matchHere, tokenHere]
  | [a] =>
    by_cases ha : (a == 't' || a == 'T') = true <;>
      simp [tidCapturePattern, matchHere, tokenHere, ha]
  | [a, b] =>
    by_cases ha : (a == 't' || a == 'T') = true <;>
      by_cases hb : (b == 'i' || b == 'I') = true <;>
      simp [tidCapturePattern, matchHere, tokenHere, ha, hb]
  | a :: b :: c :: rest =>
    by_cases ha : (a == 't' || a == 'T') = true
    · have wa := isWordChar_of_fold a 't' 'T' (by decide) (by decide) ha
      by_cases hb : (b == 'i' || b == 'I') = true
      · by_cases hc : (c == 'd' || c == 'D') = true
        · have wc := isWordChar_of_fold c 'd' 'D' (by decide) (by decide) hc
          cases hp : isWordOpt prev <;> cases hr : isWordOpt rest.head? <;>
            simp [tidCapturePattern, matchHere, tokenHere, ha, hb, hc, atWordBoundary,
              isWordOpt_some, wa, wc, hp, hr]
        · simp [tidCapturePattern, matchHere, tokenHere, ha, hb, hc]
      · simp [tidCapturePattern, matchHere, tokenHere, ha, hb]
    · simp [tidCapturePattern, matchHere, tokenHere, ha]


theorem standaloneFrom_nil (prev : Option Char) (i : Nat) : standaloneFrom prev [] i = false := by
  cases i <;> simp [standaloneFrom, tokenHere]

theorem standaloneFrom_eq (prev : Option Char) (s : List Char) (i : Nat) :
    standaloneFrom prev s i =
      (runeIs s i 't' 'T' && runeIs s (i + 1) 'i' 'I' && runeIs s (i + 2) 'd' 'D' &&
        !isWordOpt (if i = 0 then prev else s.get? (i - 1)) && !isWordOpt (s.get? (i + 3))) := by
  induction i generalizing prev s with
  | zero =>
    match s with
    | [] => simp [standaloneFrom, tokenHere, runeIs]
    | [a] => simp [standaloneFrom, tokenHere, runeIs]
    | [a, b] => simp [standaloneFrom, tokenHere, runeIs]
    | a :: b :: c :: rest =>
      cases rest <;> simp [standaloneFrom, tokenHere, runeIs, eq_comm]
  | succ i ih =>
    match s with
    | [] => simp [standaloneFrom, runeIs]
    | c :: cs =>
      rw [standaloneFrom, ih]
      cases i <;> simp [runeIs, Nat.add_right_comm]

theorem standaloneTidAt_eq (s : List Char) (i : Nat) :
    standaloneTidAt s i = standaloneFrom none s i := by
  rw [standaloneFrom_eq, standaloneTidAt]
  cases i <;> simp [isWordOpt]

theorem findIndexFrom_tid_isSome (prev : Option Char) (s : List Char) :
    (findIndexFrom tidPattern prev s).isSome = true ↔ ∃ i, standaloneFrom prev s i = true := by
  induction s generalizing prev with
  | nil => simp [findIndexFrom, matchHere_tidPattern, tokenHere, standaloneFrom_nil]
  | cons c cs ih =>
    by_cases ht : tokenHere prev (c :: cs) = true
    · have h1 : (findIndexFrom tidPattern prev (c :: cs)).isSome = true := by
        simp [findIndexFrom, matchHere_tidPattern, ht]
      rw [h1]
      simp only [true_iff]
      exact ⟨0, by simpa [standaloneFrom] using ht⟩
    · have h1 : (findIndexFrom tidPattern prev (c :: cs)).isSome =
          (findIndexFrom tidPattern (some c) cs).isSome := by
        simp [findIndexFrom, matchHere_tidPattern, ht]
      rw [h1, ih]
      constructor
      · rintro ⟨i, hi⟩
        exact ⟨i + 1, by simpa [standaloneFrom] using hi⟩
      · rintro ⟨i, hi⟩
        cases i with
        | zero => exact absurd (by simpa [standaloneFrom] using hi) ht
        | succ j => exact ⟨j, by simpa [standaloneFrom] using hi⟩


theorem expand_cid : expandTemplate cidTemplate [[], []] = ['c', 'i', 'd'] := by decide

theorem replaceAllFrom_nil (fuel : Nat) (jm : Bool) (prev : Option Char) :
    replaceAllFrom tidCapturePattern cidTemplate fuel jm prev [] = [] := by
  cases fuel with
  | zero => rfl
  | succ n => simp [replaceAllFrom, matchHere_tidCapturePattern, tokenHere]

theorem replaceAllFrom_token (fuel : Nat) (jm : Bool) (prev : Option Char) (a b c : Char)
    (rest : List Char) (ht : tokenHere prev (a :: b :: c :: rest) = true) :
    replaceAllFrom tidCapturePattern cidTemplate (fuel + 1) jm prev (a :: b :: c :: rest) =
      'c' :: 'i' :: 'd' :: replaceAllFrom tidCapturePattern cidTemplate fuel true (some c) rest := by
  simp [replaceAllFrom, matchHere_tidCapturePattern, ht, expand_cid]

theorem replaceAllFrom_copy (fuel : Nat) (jm : Bool) (prev : Option Char) (c : Char)
    (cs : List Char) (ht : tokenHere prev (c :: cs) = false) :
    replaceAllFrom tidCapturePattern cidTemplate (fuel + 1) jm prev (c :: cs) =
      c :: replaceAllFrom tidCapturePattern cidTemplate fuel false (some c) cs := by
  simp [replaceAllFrom, matchHere_tidCapturePattern, ht]

theorem tokenHere_shape (prev : Option Char) (s : List Char) (ht : tokenHere prev s = true) :
    ∃ a b c rest, s = a :: b :: c :: rest ∧ (a == 't' || a == 'T') = true ∧
      (b == 'i' || b == 'I') = true ∧ (c == 'd' || c == 'D') = true := by
  match s with
  | [] => simp [tokenHere] at ht
  | [a] => simp [tokenHere] at ht
  | [a, b] => simp [tokenHere] at ht
  | a :: b :: c :: rest =>
    refine ⟨a, b, c, rest, rfl, ?_⟩
    simp only [tokenHere, Bool.and_eq_true] at ht
    exact ⟨ht.1.1.1.1, ht.1.1.1.2, ht.1.1.2⟩

theorem tokenHere_false_of_head (prev : Option Char) (x : Char) (xs : List Char)
    (hx : (x == 't' || x == 'T') = false) : tokenHere prev (x :: xs) = false := by
  match xs with
  | [] => rfl
  | [b] => rfl
  | b :: c :: rest => simp [tokenHere, hx]

theorem not_t_of_i (b : Char) (hb : (b == 'i' || b == 'I') = true) :
    (b == 't' || b == 'T') = false := by
  simp only [Bool.or_eq_true, beq_iff_eq] at hb
  rcases hb with h | h <;> subst h <;> decide

theorem not_t_of_d (b : Char) (hb : (b == 'd' || b == 'D') = true) :
    (b == 't' || b == 'T') = false := by
  simp only [Bool.or_eq_true, beq_iff_eq] at hb
  rcases hb with h | h <;> subst h <;> decide

theorem rewrittenFrom_nil (prev : Option Char) (k : Nat) : rewrittenFrom prev [] k = none := by
  simp [rewrittenFrom, standaloneFrom_nil]

theorem rewrittenFrom_copy_zero (prev : Option Char) (c : Char) (cs : List Char)
    (ht : tokenHere prev (c :: cs) = false) : rewrittenFrom prev (c :: cs) 0 = some c := by
  simp [rewrittenFrom, standaloneFrom, ht]

theorem rewrittenFrom_copy_succ (prev : Option Char) (c : Char) (cs : List Char)
    (ht : tokenHere prev (c :: cs) = false) (j : Nat) :
    rewrittenFrom prev (c :: cs) (j + 1) = rewrittenFrom (some c) cs j := by
  match j with
  | 0 => simp [rewrittenFrom, standaloneFrom, ht]
  | 1 => simp [rewrittenFrom, standaloneFrom, ht]
  | j + 2 => simp [rewrittenFrom, standaloneFrom]

theorem rewrittenFrom_token (prev : Option Char) (a b c : Char) (rest : List Char)
    (ht : tokenHere prev (a :: b :: c :: rest) = true)
    (hb : (b == 'i' || b == 'I') = true) (hc : (c == 'd' || c == 'D') = true) :
    rewrittenFrom prev (a :: b :: c :: rest) 0 = some 'c' ∧
      rewrittenFrom prev (a :: b :: c :: rest) 1 = some 'i' ∧
      rewrittenFrom prev (a :: b :: c :: rest) 2 = some 'd' ∧
      ∀ j, rewrittenFrom prev (a :: b :: c :: rest) (j + 3) = rewrittenFrom (some c) rest j := by
  have h1 : tokenHere (some a) (b :: c :: rest) = false :=
    tokenHere_false_of_head _ _ _ (not_t_of_i b hb)
  have h2 : tokenHere (some b) (c :: rest) = false :=
    tokenHere_false_of_head _ _ _ (not_t_of_d c hc)
  refine ⟨?_, ?_, ?_, ?_⟩
  · simp [rewrittenFrom, standaloneFrom, ht]
  · simp [rewrittenFrom, standaloneFrom, ht, h1]
  · simp [rewrittenFrom, standaloneFrom, ht, h1, h2]
  · intro j
    match j with
    | 0 => simp [rewrittenFrom, standaloneFrom, h1, h2]
    | 1 => simp [rewrittenFrom, standaloneFrom, h1, h2]
    | j + 2 => simp [rewrittenFrom, standaloneFrom]

theorem replaceAllFrom_tid_spec (fuel : Nat) :
    ∀ (jm : Bool) (prev : Option Char) (s : List Char), s.length < fuel →
      (replaceAllFrom tidCapturePattern cidTemplate fuel jm prev s).length = s.length ∧
        ∀ k, (replaceAllFrom tidCapturePattern cidTemplate fuel jm prev s).get? k =
          rewrittenFrom prev s k := by
  induction fuel with
  | zero => intro jm prev s h; omega
  | succ n ih =>
    intro jm prev s hlen
    match s with
    | [] => simp [replaceAllFrom_nil, rewrittenFrom_nil]
    | x :: xs =>
      cases ht : tokenHere prev (x :: xs) with
      | false =>
        rw [replaceAllFrom_copy n jm prev x xs ht]
        have hrec := ih false (some x) xs (by simp at hlen; omega)
        refine ⟨by simp [hrec.1], ?_⟩
        intro k
        cases k with
        | zero => simp [rewrittenFrom_copy_zero prev x xs ht]
        | succ j => simpa [rewrittenFrom_copy_succ prev x xs ht] using hrec.2 j
      | true =>
        obtain ⟨a, b, c, rest, hs, -, hb, hc⟩ := tokenHere_shape prev (x :: xs) ht
        rw [hs] at ht hlen ⊢
        rw [replaceAllFrom_token n jm prev a b c rest ht]
        have hrec := ih true (some c) rest (by simp at hlen; omega)
        have hspec := rewrittenFrom_token prev a b c rest ht hb hc
        refine ⟨by simp [hrec.1], ?_⟩
        intro k
        match k with
        | 0 => simp [hspec.1]
        | 1 => simp [hspec.2.1]
        | 2 => simp [hspec.2.2.1]
        | j + 3 => simpa [hspec.2.2.2] using hrec.2 j

theorem rewrittenFrom_none_eq_rewrittenRune (s : List Char) (k : Nat) :
    rewrittenFrom none s k = rewrittenRune s k := by
  simp [rewrittenFrom, rewrittenRune, standaloneTidAt_eq]


theorem utf8Size_of_fold (a lo up : Char) (hlo : lo.utf8Size = 1) (hup : up.utf8Size = 1)
    (h : (a == lo || a == up) = true) : a.utf8Size = 1 := by
  simp only [Bool.or_eq_true, beq_iff_eq] at h
  rcases h with h | h <;> subst h <;> assumption

theorem replaceAllFrom_tid_byteSize (fuel : Nat) :
    ∀ (jm : Bool) (prev : Option Char) (s : List Char), s.length < fuel →
      String.utf8Len (replaceAllFrom tidCapturePattern cidTemplate fuel jm prev s) =
        String.utf8Len s := by
  induction fuel with
  | zero => intro jm prev s h; omega
  | succ n ih =>
    intro jm prev s hlen
    match s with
    | [] => simp [replaceAllFrom_nil]
    | x :: xs =>
      cases ht : tokenHere prev (x :: xs) with
      | false =>
        rw [replaceAllFrom_copy n jm prev x xs ht]
        simp [ih false (some x) xs (by simp at hlen; omega)]
      | true =>
        obtain ⟨a, b, c, rest, hs, ha, hb, hc⟩ := tokenHere_shape prev (x :: xs) ht
        rw [hs] at ht hlen ⊢
        rw [replaceAllFrom_token n jm prev a b c rest ht]
        have h1 := utf8Size_of_fold a 't' 'T' (by decide) (by decide) ha
        have h2 := utf8Size_of_fold b 'i' 'I' (by decide) (by decide) hb
        have h3 := utf8Size_of_fold c 'd' 'D' (by decide) (by decide) hc
        have e1 : ('c' : Char).utf8Size = 1 := by decide
        have e2 : ('i' : Char).utf8Size = 1 := by decide
        have e3 : ('d' : Char).utf8Size = 1 := by decide
        simp [ih true (some c) rest (by simp at hlen; omega), h1, h2, h3,
          e1, e2, e3]

theorem rewriteTidToCid_data (s : String) :
    (rewriteTidToCid s).data =
      replaceAllFrom tidCapturePattern cidTemplate (s.data.length + 1) false none s.data := rfl

/-- C9: `containsTid s` is true exactly when some position of `s` holds the letters t, i,
d, in any letter case, as a standalone identifier: neither directly preceded nor
directly followed by a letter, digit or underscore (the word characters
`[0-9A-Za-z_]` of the `\b` assertion); so `tid 65001` and `TID 1` give true, and
`stid 1`, `tid_x 1` and `tid1` give false. -/
theorem containsTid_iff_standalone_token (s : String) :
    (containsTid s = true ↔ ∃ i, standaloneTidAt s.data i = true) ∧
      containsTid "tid 65001" = true ∧ containsTid "TID 1" = true ∧
      containsTid "stid 1" = false ∧ containsTid "tid_x 1" = false ∧
      containsTid "tid1" = false := by
  refine ⟨?_, by decide, by decide, by decide, by decide, by decide⟩
  rw [containsTid, findIndexFrom_tid_isSome]
  simp only [standaloneTidAt_eq]

/-- C10: `rewriteTidToCid s` has the length of `s`, in runes and in bytes; at every
position inside a standalone tid token of `s` it has the corresponding letter of the
lowercase `cid`, and at every other position it has the rune of `s`; it is `s` itself
whenever `containsTid s` is false. -/
theorem rewriteTidToCid_replaces_tokens_only (s : String) :
    (rewriteTidToCid s).length = s.length ∧
      (rewriteTidToCid s).utf8ByteSize = s.utf8ByteSize ∧
      (∀ k, (rewriteTidToCid s).data.get? k = rewrittenRune s.data k) ∧
      (containsTid s = true ∨ rewriteTidToCid s = s) := by
  have hspec := replaceAllFrom_tid_spec (s.data.length + 1) false none s.data (by omega)
  have hpt : ∀ k, (rewriteTidToCid s).data.get? k = rewrittenRune s.data k := by
    intro k
    rw [rewriteTidToCid_data, hspec.2, rewrittenFrom_none_eq_rewrittenRune]
  refine ⟨?_, ?_, hpt, ?_⟩
  · simp only [String.length, rewriteTidToCid_data, hspec.1]
  · have hb := replaceAllFrom_tid_byteSize (s.data.length + 1) false none s.data (by omega)
    have e : ∀ t : String, t.utf8ByteSize = String.utf8Len t.data := fun t => by
      cases t; simp
    rw [e, e, rewriteTidToCid_data, hb]
  · cases hc : containsTid s with
    | true => exact Or.inl rfl
    | false =>
      right
      have hno : ∀ i, standaloneTidAt s.data i = false := by
        intro i
        cases hi : standaloneTidAt s.data i with
        | false => rfl
        | true =>
          have : containsTid s = true := by
            rw [containsTid, findIndexFrom_tid_isSome]
            exact ⟨i, by rw [← standaloneTidAt_eq]; exact hi⟩
          rw [hc] at this
          exact absurd this (by decide)
      have hdata : (rewriteTidToCid s).data = s.data := by
        apply List.ext_get?
        intro k
        rw [hpt k]
        simp [rewrittenRune, hno]
      exact String.ext hdata

end Flowpipeline

namespace Flowpipeline

/-! ## Claims on tagging -/

theorem setNoteIfEmpty_bad_ip (table : Char → Char) (flow : EnrichedFlow) :
    setNoteIfEmpty table flow "bad_ip" =
      { flow with Note := if flow.Note = "" then "bad_ip" else flow.Note } := by
  have h1 : TrimSpace "bad_ip" = "bad_ip" := by decide
  have h2 : ReplaceAll (ToLower table "bad_ip") ' ' "_" = "bad_ip" := rfl
  by_cases hn : flow.Note = ""
  · simp [setNoteIfEmpty, hn, h1, h2]
  · simp [setNoteIfEmpty, hn]

/-- C11: for every non-nil flow, after `TagAsBadIP` the flow has `Tid` 65001 and `Inlist`
true, its `Note` is `bad_ip` if it was empty before and its previous value otherwise,
every other field and every other record is unchanged; on the nil flow `TagAsBadIP`
changes nothing. -/
theorem tagAsBadIP_effect (table : Char → Char) (heap : Heap) (flow : Ptr) :
    TagAsBadIP table heap (some flow) flow =
        { heap flow with
          Tid := 65001, Inlist := true,
          Note := if (heap flow).Note = "" then "bad_ip" else (heap flow).Note } ∧
      (∀ q, q ≠ flow → TagAsBadIP table heap (some flow) q = heap q) ∧
      TagAsBadIP table heap none = heap := by
  refine ⟨?_, ?_, rfl⟩
  · simp [TagAsBadIP, Heap.set, setNoteIfEmpty_bad_ip, TagIDBadIP]
  · intro q hq
    simp [TagAsBadIP, Heap.set, hq]

/-- C12, on the code: with an empty `Note`, `TagWithID` with the note `Bad.IP list` writes
`bad.ip_list`, which has a dot, and with the note made of `a`, a tab and `b` it writes
that note unchanged, which has whitespace; neither is a lowercase,
hyphen/underscore-only token. -/
theorem tagWithID_note_not_normalized (table : Char → Char) :
    (TagWithID table (fun _ => {}) (some 0) 7 "Bad.IP list" 0).Note = "bad.ip_list" ∧
      isNoteToken "bad.ip_list" = false ∧
      (TagWithID table (fun _ => {}) (some 0) 7 "a\tb" 0).Note = "a\tb" ∧
      isNoteToken "a\tb" = false ∧
      isSpace '\t' = true := by
  refine ⟨?_, by decide, ?_, by decide, by decide⟩
  · have h1 : TrimSpace "Bad.IP list" = "Bad.IP list" := by decide
    have h2 : ReplaceAll (ToLower table "Bad.IP list") ' ' "_" = "bad.ip_list" := rfl
    simp [TagWithID, Heap.set, setNoteIfEmpty, h1, h2]
  · have h1 : TrimSpace "a\tb" = "a\tb" := by decide
    have h2 : ReplaceAll (ToLower table "a\tb") ' ' "_" = "a\tb" := rfl
    simp [TagWithID, Heap.set, setNoteIfEmpty, h1, h2]

/-- C13, on the code: the processing step of the matching segment never writes `Tid` or
`Inlist`; with the list file holding `10.0.0.1`, the record with source address
`10.0.0.1` is sent on `Out` with `Tid` 0, not 65001, with `Inlist` false and with the
note `inlist`. -/
theorem matching_run_does_not_tag (ipString : List Nat → String) (csv : StrMap) (heap : Heap)
    (msg q : Ptr) :
    (MatchingSegment.tag ipString csv heap msg q).Tid = (heap q).Tid ∧
      (MatchingSegment.tag ipString csv heap msg q).Inlist = (heap q).Inlist ∧
      outSent (MatchingSegment.Run (fun _ => "<nil>") (fun _ => { lines := ["10.0.0.1"] })
        { ipListPath := "bad_ips.txt" } (fun _ => { SourceIP := "10.0.0.1" }) [0]).1 = [0] ∧
      ((MatchingSegment.Run (fun _ => "<nil>") (fun _ => { lines := ["10.0.0.1"] })
        { ipListPath := "bad_ips.txt" } (fun _ => { SourceIP := "10.0.0.1" }) [0]).2.1 0).Tid = 0 ∧
      ((MatchingSegment.Run (fun _ => "<nil>") (fun _ => { lines := ["10.0.0.1"] })
        { ipListPath := "bad_ips.txt" } (fun _ => { SourceIP := "10.0.0.1" }) [0]).2.1 0).Inlist =
          false ∧
      ((MatchingSegment.Run (fun _ => "<nil>") (fun _ => { lines := ["10.0.0.1"] })
        { ipListPath := "bad_ips.txt" } (fun _ => { SourceIP := "10.0.0.1" }) [0]).2.1 0).Note =
          "inlist" := by
  refine ⟨?_, ?_, by decide, by decide, by decide, by decide⟩
  · simp only [MatchingSegment.tag]
    split_ifs <;> first | rfl | (by_cases hq : q = msg <;> simp [Heap.set, hq])
  · simp only [MatchingSegment.tag]
    split_ifs <;> first | rfl | (by_cases hq : q = msg <;> simp [Heap.set, hq])

end Flowpipeline

namespace Flowpipeline

/-! ## Claims on the construction of `influx` and `snmpinterface` -/

/-- C14: `Influx.New` returns nil for every config in which `org`, `bucket` or `token` is
missing or empty; for every config in which the three are non-empty and neither `tags`
nor `fields` is configured it returns a segment whose `Address` is the configured
address, or `http://127.0.0.1:8086` when none is given, whose `Tags` is `ProtoName`
alone and whose `Fields` are `Bytes` and `Packets`. -/
theorem influx_new_required_and_defaults (hasField : String → Bool) (config : StrMap) :
    ((config.get "org" = "" ∨ config.get "bucket" = "" ∨ config.get "token" = "") →
        Influx.New hasField config = none) ∧
      ((config.get "org" ≠ "" ∧ config.get "bucket" ≠ "" ∧ config.get "token" ≠ "" ∧
          config.get "tags" = "" ∧ config.get "fields" = "") →
        Influx.New hasField config =
          some { Address := if config.get "address" = "" then "http://127.0.0.1:8086"
                            else config.get "address",
                 Org := config.get "org", Bucket := config.get "bucket",
                 Token := config.get "token", Tags := ["ProtoName"],
                 Fields := ["Bytes", "Packets"] }) ∧
      Influx.New hasField [("org", "o"), ("bucket", "b"), ("token", "t")] =
        some { Address := "http://127.0.0.1:8086", Org := "o", Bucket := "b", Token := "t",
               Tags := ["ProtoName"], Fields := ["Bytes", "Packets"] } ∧
      Influx.New hasField [("org", "o"), ("bucket", "b")] = none := by
  refine ⟨?_, ?_, rfl, rfl⟩
  · intro h
    unfold Influx.New
    by_cases ho : config.get "org" = ""
    · simp [ho]
    · by_cases hb : config.get "bucket" = ""
      · simp [ho, hb]
      · have ht : config.get "token" = "" := by
          rcases h with h | h | h
          · exact absurd h ho
          · exact absurd h hb
          · exact h
        simp [ho, hb, ht]
  · rintro ⟨ho, hb, ht, htags, hfields⟩
    unfold Influx.New
    by_cases ha : config.get "address" = "" <;> simp [ho, hb, ht, htags, hfields, ha]

/-- C15: `SNMPInterface.New` returns nil exactly when `connlimit` parses as an unsigned
base-10 32-bit numeral equal to 0, or the regex (the configured one, or the default
`^(.*)$` when none is configured) does not compile; so, when the default compiles and
`(` does not, it is nil for connlimit `0` and for regex `(`, and a segment for the
empty config, for connlimit `42` and for the unparsable connlimit `-8`. -/
theorem snmp_new_nil_iff (compiles : String → Bool) (config : StrMap) :
    (SNMPInterface.New compiles config = none ↔
        (ParseUint32 (config.get "connlimit") = some 0 ∨
          compiles (if config.get "regex" = "" then "^(.*)$" else config.get "regex") = false)) ∧
      ((compiles "^(.*)$" = true ∧ compiles "(" = false) →
        (SNMPInterface.New compiles [("connlimit", "0")] = none ∧
          SNMPInterface.New compiles [("regex", "(")] = none ∧
          SNMPInterface.New compiles [] =
            some { Community := "public", Regex := "^(.*)$", ConnLimit := 16 } ∧
          SNMPInterface.New compiles [("connlimit", "42")] =
            some { Community := "public", Regex := "^(.*)$", ConnLimit := 42 } ∧
          SNMPInterface.New compiles [("connlimit", "-8")] =
            some { Community := "public", Regex := "^(.*)$", ConnLimit := 16 })) := by
  constructor
  · have hempty : ParseUint32 "" = none := by decide
    unfold SNMPInterface.New
    by_cases hc : config.get "connlimit" = ""
    · by_cases hr : config.get "regex" = "" <;>
        cases hcomp : compiles "^(.*)$" <;>
        cases hcomp2 : compiles (config.get "regex") <;>
        simp [hc, hr, hempty, hcomp, hcomp2]
    · cases hp : ParseUint32 (config.get "connlimit") with
      | none =>
        by_cases hr : config.get "regex" = "" <;>
          cases hcomp : compiles "^(.*)$" <;>
          cases hcomp2 : compiles (config.get "regex") <;>
          simp [hc, hr, hp, hcomp, hcomp2]
      | some v =>
        by_cases hv : v = 0
        · simp [hc, hp, hv]
        · by_cases hr : config.get "regex" = "" <;>
            cases hcomp : compiles "^(.*)$" <;>
            cases hcomp2 : compiles (config.get "regex") <;>
            simp [hc, hr, hp, hv, hcomp, hcomp2]
  · rintro ⟨hd, hb⟩
    have g1 : StrMap.get [("connlimit", "0")] "connlimit" = "0" := by decide
    have g2 : StrMap.get [("regex", "(")] "connlimit" = "" := by decide
    have g3 : StrMap.get [("regex", "(")] "regex" = "(" := by decide
    have g4 : StrMap.get [("regex", "(")] "community" = "" := by decide
    have g5 : ∀ k, StrMap.get [] k = "" := fun k => rfl
    have g6 : StrMap.get [("connlimit", "42")] "connlimit" = "42" := by decide
    have g7 : StrMap.get [("connlimit", "42")] "regex" = "" := by decide
    have g8 : StrMap.get [("connlimit", "42")] "community" = "" := by decide
    have g9 : StrMap.get [("connlimit", "-8")] "connlimit" = "-8" := by decide
    have g10 : StrMap.get [("connlimit", "-8")] "regex" = "" := by decide
    have g11 : StrMap.get [("connlimit", "-8")] "community" = "" := by decide
    have p0 : ParseUint32 "0" = some 0 := by decide
    have p42 : ParseUint32 "42" = some 42 := by decide
    have p8 : ParseUint32 "-8" = none := by decide
    refine ⟨?_, ?_, ?_, ?_, ?_⟩
    · simp [SNMPInterface.New, g1, p0]
    · simp [SNMPInterface.New, g2, g3, g4, hb]
    · simp [SNMPInterface.New, g5, hd]
    · simp [SNMPInterface.New, g6, g7, g8, p42, hd]
    · simp [SNMPInterface.New, g9, g10, g11, p8, hd]

/-- C16: on every config on which `SNMPInterface.New` succeeds, `ConnLimit` is the parsed
value when `connlimit` parses as an unsigned 32-bit decimal and 16 when it is absent,
empty or does not parse; `Community` is `public` when `community` is empty and the
configured value otherwise; `Regex` is `^(.*)$` when `regex` is empty and the
configured value otherwise. -/
theorem snmp_new_defaults (compiles : String → Bool) (config : StrMap) (seg : SNMPInterface)
    (h : SNMPInterface.New compiles config = some seg) :
    seg.ConnLimit = (ParseUint32 (config.get "connlimit")).getD 16 ∧
      seg.Community = (if config.get "community" = "" then "public"
        else config.get "community") ∧
      seg.Regex = (if config.get "regex" = "" then "^(.*)$" else config.get "regex") := by
  have hempty : ParseUint32 "" = none := by decide
  unfold SNMPInterface.New at h
  by_cases hc : config.get "connlimit" = ""
  · simp [hc] at h
    obtain ⟨-, rfl⟩ := h
    by_cases hcm : config.get "community" = "" <;> by_cases hr : config.get "regex" = "" <;>
      simp [hc, hempty, hcm, hr]
  · cases hp : ParseUint32 (config.get "connlimit") with
    | none =>
      simp [hc, hp] at h
      obtain ⟨-, rfl⟩ := h
      by_cases hcm : config.get "community" = "" <;> by_cases hr : config.get "regex" = "" <;>
        simp [hcm, hr]
    | some v =>
      by_cases hv : v = 0
      · simp [hc, hp, hv] at h
      · simp [hc, hp, hv] at h
        obtain ⟨-, rfl⟩ := h
        by_cases hcm : config.get "community" = "" <;> by_cases hr : config.get "regex" = "" <;>
          simp [hcm, hr]

/-- C16, at concrete configs: only `connlimit` set to `42`, and every parameter unset. -/
theorem snmp_new_defaults_witness :
    (SNMPInterface.New (fun _ => true) [("connlimit", "42")] =
        some { Community := "public", Regex := "^(.*)$", ConnLimit := 42 }) ∧
      (({ Community := "public", Regex := "^(.*)$", ConnLimit := 42 } : SNMPInterface).ConnLimit =
          (ParseUint32 (StrMap.get [("connlimit", "42")] "connlimit")).getD 16 ∧
        ({ Community := "public", Regex := "^(.*)$", ConnLimit := 42 } : SNMPInterface).Community =
          (if StrMap.get [("connlimit", "42")] "community" = "" then "public"
            else StrMap.get [("connlimit", "42")] "community") ∧
        ({ Community := "public", Regex := "^(.*)$", ConnLimit := 42 } : SNMPInterface).Regex =
          (if StrMap.get [("connlimit", "42")] "regex" = "" then "^(.*)$"
            else StrMap.get [("connlimit", "42")] "regex")) :=
  ⟨by decide,
    snmp_new_defaults (fun _ => true) [("connlimit", "42")]
      { Community := "public", Regex := "^(.*)$", ConnLimit := 42 } (by decide)⟩

end Flowpipeline

namespace Flowpipeline

/-! ## Claims on the SNMP cache -/

theorem cacheKey_injective (router : String) (iface : Nat) (k1 k2 : String)
    (h : cacheKey router iface k1 = cacheKey router iface k2) : k1 = k2 := by
  have hd := congrArg String.data h
  simp only [cacheKey, String.data_append, List.append_assoc] at hd
  have h1 := List.append_cancel_left hd
  have h2 := List.append_cancel_left h1
  have h3 := List.append_cancel_left h2
  have h4 := List.append_cancel_left h3
  exact String.ext h4

theorem fetchLoop_keeps_nil (router : String) (iface : Nat) (keys : List String) :
    ∀ (st : FetchState) (q : String), st.cache q = some CacheValue.nil →
      (SNMPInterface.fetchLoop router iface keys st).2.1 q = some CacheValue.nil := by
  induction keys with
  | nil => intro st q h; simpa [SNMPInterface.fetchLoop] using h
  | cons key rest ih =>
    intro st q h
    unfold SNMPInterface.fetchLoop
    split
    · exact h
    · split_ifs <;> first | exact ih _ q h | (split <;> first | exact h | exact ih _ q h)
    · apply ih
      simp only [SNMPCache.Set]
      split_ifs <;> first | rfl | exact h

theorem fetchLoop_fresh (router : String) (iface : Nat) (keys : List String) :
    ∀ (st : FetchState), keys.Nodup →
      (∀ key ∈ keys, st.cache (cacheKey router iface key) = none) →
      (SNMPInterface.fetchLoop router iface keys st).1 =
          FetchResult.returned st.name st.desc st.speed ∧
        (∀ key ∈ keys, (SNMPInterface.fetchLoop router iface keys st).2.1
          (cacheKey router iface key) = some CacheValue.nil) ∧
        (SNMPInterface.fetchLoop router iface keys st).2.2 = st.spawned ++ keys := by
  induction keys with
  | nil => intro st _ _; simp [SNMPInterface.fetchLoop]
  | cons key rest ih =>
    intro st hnd hnone
    have hkey : st.cache (cacheKey router iface key) = none := hnone key (by simp)
    have hnd2 := List.nodup_cons.mp hnd
    have hstep : SNMPInterface.fetchLoop router iface (key :: rest) st =
        SNMPInterface.fetchLoop router iface rest
          { st with
            cache := st.cache.Set (cacheKey router iface key) CacheValue.nil,
            spawned := st.spawned ++ [key] } := by
      rw [SNMPInterface.fetchLoop]
      simp only [hkey]
    have hrest : ∀ k ∈ rest,
        (st.cache.Set (cacheKey router iface key) CacheValue.nil) (cacheKey router iface k) =
          none := by
      intro k hk
      have hne : cacheKey router iface k ≠ cacheKey router iface key := by
        intro he
        have := cacheKey_injective router iface k key he
        exact hnd2.1 (this ▸ hk)
      simp only [SNMPCache.Set, hne, if_false]
      exact hnone k (by simp [hk])
    have h := ih { st with
        cache := st.cache.Set (cacheKey router iface key) CacheValue.nil,
        spawned := st.spawned ++ [key] } hnd2.2 hrest
    rw [hstep]
    refine ⟨h.1, ?_, by simpa using h.2.2⟩
    intro k hk
    rcases List.mem_cons.mp hk with rfl | hk
    · apply fetchLoop_keeps_nil
      simp [SNMPCache.Set]
    · exact h.2.1 k hk

theorem fetchLoop_queried (router : String) (iface : Nat) (keys : List String) :
    ∀ (st : FetchState),
      (∀ key ∈ keys, entryWellTyped key (st.cache (cacheKey router iface key)) = true) →
      (∃ key ∈ keys, st.cache (cacheKey router iface key) = some CacheValue.nil) →
      (SNMPInterface.fetchLoop router iface keys st).1 = FetchResult.returned "" "" 0 := by
  induction keys with
  | nil => intro st _ h; obtain ⟨k, hk, _⟩ := h; simp at hk
  | cons key rest ih =>
    intro st hwt hex
    obtain ⟨k, hk, hknil⟩ := hex
    have hwtk := hwt key (by simp)
    cases hc : st.cache (cacheKey router iface key) with
    | none =>
      have hkne : k ≠ key := by
        intro he; rw [he, hc] at hknil; cases hknil
      have hkrest : k ∈ rest := by
        rcases List.mem_cons.mp hk with h | h
        · exact absurd h hkne
        · exact h
      rw [SNMPInterface.fetchLoop]
      simp only [hc]
      apply ih
      · intro k2 hk2
        simp only [SNMPCache.Set]
        split_ifs
        · rfl
        · exact hwt k2 (by simp [hk2])
      · refine ⟨k, hkrest, ?_⟩
        simp only [SNMPCache.Set]
        split_ifs
        · rfl
        · exact hknil
    | some v =>
      cases v with
      | nil =>
        rw [SNMPInterface.fetchLoop]
        simp only [hc]
      | str s =>
        have hkne : k ≠ key := by
          intro he; rw [he, hc] at hknil; cases hknil
        have hkrest : k ∈ rest := by
          rcases List.mem_cons.mp hk with h | h
          · exact absurd h hkne
          · exact h
        have hrec := fun st2 (hst : st2.cache = st.cache) =>
          ih st2 (fun k2 hk2 => by rw [hst]; exact hwt k2 (by simp [hk2]))
            ⟨k, hkrest, by rw [hst]; exact hknil⟩
        rw [hc] at hwtk
        simp only [entryWellTyped, bne_iff_ne, ne_eq] at hwtk
        rw [SNMPInterface.fetchLoop]
        simp only [hc]
        split_ifs <;> first | exact hrec _ rfl | (simp_all)
      | u64 n =>
        have hkne : k ≠ key := by
          intro he; rw [he, hc] at hknil; cases hknil
        have hkrest : k ∈ rest := by
          rcases List.mem_cons.mp hk with h | h
          · exact absurd h hkne
          · exact h
        have hrec := fun st2 (hst : st2.cache = st.cache) =>
          ih st2 (fun k2 hk2 => by rw [hst]; exact hwt k2 (by simp [hk2]))
            ⟨k, hkrest, by rw [hst]; exact hknil⟩
        rw [hc] at hwtk
        simp only [entryWellTyped, bne_iff_ne, ne_eq, Bool.and_eq_true,
          Bool.not_eq_true', beq_eq_false_iff_ne, decide_eq_true_eq] at hwtk
        rw [SNMPInterface.fetchLoop]
        simp only [hc]
        split_ifs <;> first | exact hrec _ rfl | (simp_all)
      | other =>
        have hkne : k ≠ key := by
          intro he; rw [he, hc] at hknil; cases hknil
        have hkrest : k ∈ rest := by
          rcases List.mem_cons.mp hk with h | h
          · exact absurd h hkne
          · exact h
        have hrec := fun st2 (hst : st2.cache = st.cache) =>
          ih st2 (fun k2 hk2 => by rw [hst]; exact hwt k2 (by simp [hk2]))
            ⟨k, hkrest, by rw [hst]; exact hknil⟩
        rw [hc] at hwtk
        simp only [entryWellTyped, bne_iff_ne, ne_eq, Bool.and_eq_true,
          Bool.not_eq_true', beq_eq_false_iff_ne, decide_eq_true_eq] at hwtk
        rw [SNMPInterface.fetchLoop]
        simp only [hc]
        split_ifs <;> first | exact hrec _ rfl | (simp_all)

theorem fetchLoop_queried_or_panic (router : String) (iface : Nat) (keys : List String) :
    ∀ (st : FetchState),
      (∃ key ∈ keys, st.cache (cacheKey router iface key) = some CacheValue.nil) →
      (SNMPInterface.fetchLoop router iface keys st).1 = FetchResult.returned "" "" 0 ∨
        (SNMPInterface.fetchLoop router iface keys st).1 = FetchResult.panicked := by
  induction keys with
  | nil => intro st h; obtain ⟨k, hk, _⟩ := h; simp at hk
  | cons key rest ih =>
    intro st hex
    obtain ⟨k, hk, hknil⟩ := hex
    cases hc : st.cache (cacheKey router iface key) with
    | none =>
      have hkne : k ≠ key := by
        intro he; rw [he, hc] at hknil; cases hknil
      have hkrest : k ∈ rest := by
        rcases List.mem_cons.mp hk with h | h
        · exact absurd h hkne
        · exact h
      rw [SNMPInterface.fetchLoop]
      simp only [hc]
      apply ih
      refine ⟨k, hkrest, ?_⟩
      simp only [SNMPCache.Set]
      split_ifs
      · rfl
      · exact hknil
    | some v =>
      by_cases hv : v = CacheValue.nil
      · subst hv
        rw [SNMPInterface.fetchLoop]
        simp [hc]
      · have hkne : k ≠ key := by
          intro he; rw [he, hc] at hknil; cases hknil; exact hv rfl
        have hkrest : k ∈ rest := by
          rcases List.mem_cons.mp hk with h | h
          · exact absurd h hkne
          · exact h
        have hrec := fun st2 (hst : st2.cache = st.cache) =>
          ih st2 ⟨k, hkrest, by rw [hst]; exact hknil⟩
        rw [SNMPInterface.fetchLoop]
        cases v with
        | nil => exact absurd rfl hv
        | str s =>
          simp only [hc]
          split_ifs <;> first | exact hrec _ rfl | exact Or.inr rfl
        | u64 n =>
          simp only [hc]
          split_ifs <;> first | exact hrec _ rfl | exact Or.inr rfl
        | other =>
          simp only [hc]
          split_ifs <;> first | exact hrec _ rfl | exact Or.inr rfl

/-- C17, as stated, fails: with the speed of an interface marked as being queried and a
`uint64` stored under its name, a call that visits `name` first does not return
`("", "", 0)`: the type assertion on the name panics. -/
theorem fetchInterfaceData_panics_before_queried_key :
    mistypedNameCache (cacheKey "10.0.0.1" 3 "speed") = some CacheValue.nil ∧
      (SNMPInterface.fetchInterfaceData ["name", "speed", "desc"] mistypedNameCache
        "10.0.0.1" 3).1 = FetchResult.panicked ∧
      (SNMPInterface.fetchInterfaceData ["name", "speed", "desc"] mistypedNameCache
        "10.0.0.1" 3).1 ≠ FetchResult.returned "" "" 0 := by
  refine ⟨by decide, by decide, by decide⟩

/-- C17, amended: whatever the order in which the keys `name`, `speed`, `desc` are
visited, a call of `fetchInterfaceData` for a router and interface with no cache entry
under any of the three keys returns `("", "", 0)`, leaves the three keys in the cache
with the nil value that marks them as being queried, and starts one query for each;
a call made while one of the three keys holds that nil value never returns anything
but `("", "", 0)`: it returns it when the entries of the three keys have the dynamic
types the function asserts, and otherwise it returns it or panics. -/
theorem fetchInterfaceData_first_call_and_queried (order : List String) (cache : SNMPCache)
    (router : String) (iface : Nat) (horder : order.Perm ["name", "speed", "desc"]) :
    ((∀ key ∈ ["name", "speed", "desc"], cache (cacheKey router iface key) = none) →
        (SNMPInterface.fetchInterfaceData order cache router iface).1 =
            FetchResult.returned "" "" 0 ∧
          (∀ key ∈ ["name", "speed", "desc"],
            (SNMPInterface.fetchInterfaceData order cache router iface).2.1
              (cacheKey router iface key) = some CacheValue.nil) ∧
          (SNMPInterface.fetchInterfaceData order cache router iface).2.2 = order) ∧
      ((∀ key ∈ ["name", "speed", "desc"],
          entryWellTyped key (cache (cacheKey router iface key)) = true) →
        (∃ key ∈ ["name", "speed", "desc"],
          cache (cacheKey router iface key) = some CacheValue.nil) →
        (SNMPInterface.fetchInterfaceData order cache router iface).1 =
          FetchResult.returned "" "" 0) ∧
      ((∃ key ∈ ["name", "speed", "desc"],
          cache (cacheKey router iface key) = some CacheValue.nil) →
        ((SNMPInterface.fetchInterfaceData order cache router iface).1 =
            FetchResult.returned "" "" 0 ∨
          (SNMPInterface.fetchInterfaceData order cache router iface).1 =
            FetchResult.panicked)) := by
  have hnd : order.Nodup := (List.Perm.nodup_iff horder).mpr (by decide)
  refine ⟨?_, ?_, ?_⟩
  · intro hnone
    have h := fetchLoop_fresh router iface order { cache := cache } hnd
      (fun key hk => hnone key ((List.Perm.mem_iff horder).mp hk))
    refine ⟨h.1, ?_, by simpa using h.2.2⟩
    intro key hk
    exact h.2.1 key ((List.Perm.mem_iff horder).mpr hk)
  · intro hwt hex
    obtain ⟨k, hk, hknil⟩ := hex
    exact fetchLoop_queried router iface order { cache := cache }
      (fun key hkey => hwt key ((List.Perm.mem_iff horder).mp hkey))
      ⟨k, (List.Perm.mem_iff horder).mpr hk, hknil⟩
  · intro hex
    obtain ⟨k, hk, hknil⟩ := hex
    exact fetchLoop_queried_or_panic router iface order { cache := cache }
      ⟨k, (List.Perm.mem_iff horder).mpr hk, hknil⟩

/-- C17 amended, at concrete inputs: the first call for interface 3 of the router
`10.0.0.1` on an empty cache, the keys visited in the order `desc`, `name`, `speed`;
and a call for the same interface when its name is known and its speed is being
queried, the keys visited in the order `name`, `speed`, `desc`. -/
theorem fetchInterfaceData_first_call_and_queried_witness :
    (List.Perm ["desc", "name", "speed"] ["name", "speed", "desc"] ∧
      (SNMPInterface.fetchInterfaceData ["desc", "name", "speed"] (fun _ => none)
          "10.0.0.1" 3).1 = FetchResult.returned "" "" 0 ∧
      (∀ key ∈ ["name", "speed", "desc"],
        (SNMPInterface.fetchInterfaceData ["desc", "name", "speed"] (fun _ => none)
          "10.0.0.1" 3).2.1 (cacheKey "10.0.0.1" 3 key) = some CacheValue.nil) ∧
      (SNMPInterface.fetchInterfaceData ["desc", "name", "speed"] (fun _ => none)
          "10.0.0.1" 3).2.2 = ["desc", "name", "speed"]) ∧
    ((∀ key ∈ ["name", "speed", "desc"],
        entryWellTyped key (nameKnownCache (cacheKey "10.0.0.1" 3 key)) = true) ∧
      nameKnownCache (cacheKey "10.0.0.1" 3 "name") = some (CacheValue.str "eth0") ∧
      nameKnownCache (cacheKey "10.0.0.1" 3 "speed") = some CacheValue.nil ∧
      (SNMPInterface.fetchInterfaceData ["name", "speed", "desc"] nameKnownCache
          "10.0.0.1" 3).1 = FetchResult.returned "" "" 0) :=
  ⟨⟨by decide,
    (fetchInterfaceData_first_call_and_queried ["desc", "name", "speed"] (fun _ => none)
      "10.0.0.1" 3 (by decide)).1 (fun _ _ => rfl)⟩,
   ⟨by decide, by decide, by decide,
    (fetchInterfaceData_first_call_and_queried ["name", "speed", "desc"] nameKnownCache
      "10.0.0.1" 3 (List.Perm.refl _)).2.1 (by decide) ⟨"speed", by decide, by decide⟩⟩⟩

end Flowpipeline

namespace Flowpipeline

/-! ## Claims on the lines read by `stdin` -/

theorem reader_linesSent (eofCloses : Bool) (steps : List ScanStep) :
    linesSent (StdIn.reader eofCloses steps) =
      ((turnsBeforeShutdown eofCloses steps).filter
        (fun step => !step.err && step.text != "")).map (fun step => step.text) := by
  induction steps with
  | nil => rfl
  | cons step rest ih =>
    have hlen : (step.text.data.length == 0) = (step.text == "") := by
      cases step.text with
      | mk d => cases d <;> simp [String.ext_iff]
    unfold turnsBeforeShutdown at ih ⊢
    cases he : step.err <;> cases hc : eofCloses <;> cases hs : step.scan <;>
      by_cases ht : step.text = "" <;>
      simp_all [StdIn.reader, linesSent, List.takeWhile_cons, List.filter_cons]

theorem stdin_loop_frame (unmarshal : String → Option EnrichedFlow) (turns : List SelectCase) :
    ∀ (next : Nat) (heap : Heap) (q : Nat), q < next →
      (StdIn.loop unmarshal next heap turns).2 q = heap q := by
  induction turns with
  | nil => intro next heap q _; rfl
  | cons t rest ih =>
    intro next heap q hq
    cases t with
    | recvIn msg =>
      cases msg with
      | none => rfl
      | some p => simpa [StdIn.loop] using ih next heap q hq
    | recvLine line =>
      cases hu : unmarshal line with
      | none => simpa [StdIn.loop, hu] using ih next heap q hq
      | some flow =>
        have h := ih (next + 1) (heap.set next flow) q (by omega)
        have hne : q ≠ next := by omega
        simp only [StdIn.loop, hu]
        rw [h]
        simp [Heap.set, hne]

theorem stdin_loop_flows (unmarshal : String → Option EnrichedFlow) (n0 : Nat)
    (turns : List SelectCase) :
    ∀ (next : Nat) (heap : Heap), n0 ≤ next →
      (∀ p : Nat, SelectCase.recvIn (some p) ∈ turns → p < n0) →
      ((outSent (StdIn.loop unmarshal next heap turns).1.1).filter (fun p => n0 ≤ p)).map
          (StdIn.loop unmarshal next heap turns).2 =
        (receivedLines turns).filterMap unmarshal := by
  induction turns with
  | nil => intro next heap _ _; rfl
  | cons t rest ih =>
    intro next heap hle hfresh
    have hrest : ∀ p : Nat, SelectCase.recvIn (some p) ∈ rest → p < n0 :=
      fun p hp => hfresh p (List.mem_cons_of_mem _ hp)
    cases t with
    | recvIn msg =>
      cases msg with
      | none => rfl
      | some p =>
        have hp : ¬ n0 ≤ p := Nat.not_le.mpr (hfresh p (List.mem_cons_self _ _))
        simp only [StdIn.loop, outSent_cons_sendOut, receivedLines]
        rw [List.filter_cons_of_neg (by simpa using hp)]
        exact ih next heap hle hrest
    | recvLine line =>
      cases hu : unmarshal line with
      | none =>
        simp only [StdIn.loop, hu, receivedLines, List.filterMap_cons]
        exact ih next heap hle hrest
      | some flow =>
        have hfr := stdin_loop_frame unmarshal rest (next + 1) (heap.set next flow) next
          (by omega)
        simp only [StdIn.loop, hu, outSent_cons_sendOut, receivedLines, List.filterMap_cons]
        rw [List.filter_cons_of_pos (by simpa using hle), List.map_cons, hfr,
          ih (next + 1) (heap.set next flow) (by omega) hrest]
        simp [Heap.set]

theorem flowsFromLines_run (unmarshal : String → Option EnrichedFlow) (next : Ptr)
    (heap : Heap) (turns : List SelectCase) :
    flowsFromLines next (StdIn.Run unmarshal next heap turns) =
      ((outSent (StdIn.loop unmarshal next heap turns).1.1).filter (fun p => next ≤ p)).map
        (StdIn.loop unmarshal next heap turns).2 := by
  unfold flowsFromLines StdIn.Run
  cases hb : (StdIn.loop unmarshal next heap turns).1.2
  · simp only [hb, Bool.false_eq_true, if_false]
  · have h2 : outSent [Event.closeOut, Event.wgDone] = [] := rfl
    simp only [hb, if_true, outSent_append, h2, List.append_nil]

/-- C18: the records that `StdIn.Run` emits from lines are exactly the decodings of the
lines that are read without scanner error, are not empty and decode, in line order;
an empty line and a line that does not decode emit nothing and do not keep a later
line from being emitted. This is for a run in which the select loop receives every
line the reader sends, and the records that arrive on `In` were allocated before. -/
theorem stdin_emits_decodable_lines (unmarshal : String → Option EnrichedFlow)
    (eofCloses : Bool) (steps : List ScanStep) (next : Ptr) (heap : Heap)
    (turns : List SelectCase)
    (hfresh : ∀ p, SelectCase.recvIn (some p) ∈ turns → p < next)
    (hsched : receivedLines turns = linesSent (StdIn.reader eofCloses steps)) :
    flowsFromLines next (StdIn.Run unmarshal next heap turns) =
      (((turnsBeforeShutdown eofCloses steps).filter
        (fun step => !step.err && step.text != "")).map (fun step => step.text)).filterMap
          unmarshal := by
  rw [flowsFromLines_run, stdin_loop_flows unmarshal next turns next heap (Nat.le_refl _) hfresh,
    hsched, reader_linesSent]

/-- C18, at a concrete input: the lines `a`, an empty line, `bad` (which does not decode)
and `c`, then end of input, while one record arrives on `In`; the records emitted
from lines are the decodings of `a` and `c`. -/
theorem stdin_emits_decodable_lines_witness :
    receivedLines [SelectCase.recvLine "a", SelectCase.recvIn (some 2),
        SelectCase.recvLine "bad", SelectCase.recvLine "c", SelectCase.recvIn none] =
      linesSent (StdIn.reader true
        [{ scan := true, text := "a" }, { scan := true, text := "" },
         { scan := true, text := "bad" }, { scan := true, text := "c" },
         { scan := false, text := "" }]) ∧
    flowsFromLines 5
        (StdIn.Run (fun l => if l = "bad" then none else some { Note := l }) 5 (fun _ => {})
          [SelectCase.recvLine "a", SelectCase.recvIn (some 2), SelectCase.recvLine "bad",
           SelectCase.recvLine "c", SelectCase.recvIn none]) =
      (((turnsBeforeShutdown true
        [{ scan := true, text := "a" }, { scan := true, text := "" },
         { scan := true, text := "bad" }, { scan := true, text := "c" },
         { scan := false, text := "" }]).filter
        (fun step => !step.err && step.text != "")).map (fun step => step.text)).filterMap
          (fun l => if l = "bad" then none else some { Note := l }) :=
  ⟨by decide,
    stdin_emits_decodable_lines (fun l => if l = "bad" then none else some { Note := l }) true
      [{ scan := true, text := "a" }, { scan := true, text := "" },
       { scan := true, text := "bad" }, { scan := true, text := "c" },
       { scan := false, text := "" }] 5 (fun _ => {})
      [SelectCase.recvLine "a", SelectCase.recvIn (some 2), SelectCase.recvLine "bad",
       SelectCase.recvLine "c", SelectCase.recvIn none]
      (by intro p hp; simp at hp; subst hp; decide) (by decide)⟩

end Flowpipeline

namespace Flowpipeline

/-! ## The text that `FlowFilter.New` parses -/

theorem containsTid_eq_true_iff (s : String) :
    containsTid s = true ↔ ∃ i, standaloneTidAt s.data i = true := by
  rw [containsTid, findIndexFrom_tid_isSome]
  simp only [standaloneTidAt_eq]

theorem rewriteTidToCid_rune (s : String) (k : Nat) :
    (rewriteTidToCid s).data.get? k = rewrittenRune s.data k := by
  have hspec := replaceAllFrom_tid_spec (s.data.length + 1) false none s.data (by omega)
  rw [rewriteTidToCid_data, hspec.2, rewrittenFrom_none_eq_rewrittenRune]

theorem rewrittenRune_of_no_token (s : List Char)
    (hno : ¬ ∃ i, standaloneTidAt s i = true) (k : Nat) : rewrittenRune s k = s.get? k := by
  have h : ∀ i, standaloneTidAt s i = false := by
    intro i
    cases hi : standaloneTidAt s i with
    | false => rfl
    | true => exact absurd ⟨i, hi⟩ hno
  simp [rewrittenRune, h]

theorem rewrittenRune_ne_of_token (s : List Char) (i : Nat)
    (hi : standaloneTidAt s i = true) : rewrittenRune s i ≠ s.get? i := by
  have hc : rewrittenRune s i = some 'c' := by simp [rewrittenRune, hi]
  have ht : runeIs s i 't' 'T' = true := by
    simp only [standaloneTidAt, Bool.and_eq_true] at hi
    exact hi.1.1.1.1
  rw [hc]
  simp only [runeIs, Bool.or_eq_true, beq_iff_eq] at ht
  rcases ht with h | h <;> rw [h] <;> decide

/-- C8: `FlowFilter.New` returns nil exactly when the text it parses fails to parse or
the parsed expression fails the check against an empty flow, and every segment it
returns carries the configured filter string unchanged, the parsed expression and the
tid flag, which is set exactly when the filter has a standalone tid token. The text
it parses is, rune by rune, the filter with `cid` in the place of every standalone
tid token, so it differs from the filter whenever there is one: for the filter
`tid 65001` the outcome follows what the parser says of `cid 65001`, whatever it
says of `tid 65001`; with a parser that rejects `protoo 4`, that filter gives nil. -/
theorem flowFilter_new_result {Expr : Type} (lib : FilterLib Expr) (config : StrMap) :
    ((FlowFilter.New lib config = none ↔
        ((∃ err, lib.Parse (if containsTid (config.get "filter") then
            rewriteTidToCid (config.get "filter") else config.get "filter") =
              Except.error err) ∨
          ∃ e err, lib.Parse (if containsTid (config.get "filter") then
            rewriteTidToCid (config.get "filter") else config.get "filter") = Except.ok e ∧
              (lib.CheckFlow false e {}).2 = some err)) ∧
      (∀ seg, FlowFilter.New lib config = some seg →
        seg.Filter = config.get "filter" ∧
          seg.useTid = containsTid (config.get "filter") ∧
          (seg.useTid = true ↔ ∃ i, standaloneTidAt (config.get "filter").data i = true) ∧
          seg.Drops = none ∧
          lib.Parse (if containsTid (config.get "filter") then
            rewriteTidToCid (config.get "filter") else config.get "filter") =
              Except.ok seg.expression) ∧
      (∀ k, (if containsTid (config.get "filter") then
            rewriteTidToCid (config.get "filter") else config.get "filter").data.get? k =
          rewrittenRune (config.get "filter").data k) ∧
      ((∃ i, standaloneTidAt (config.get "filter").data i = true) →
        (if containsTid (config.get "filter") then
            rewriteTidToCid (config.get "filter") else config.get "filter") ≠
          config.get "filter")) ∧
      (∀ e, lib.Parse "cid 65001" = Except.ok e → (lib.CheckFlow false e {}).2 = none →
        FlowFilter.New lib [("filter", "tid 65001")] =
          some { Filter := "tid 65001", expression := e, useTid := true }) ∧
      (∀ err, lib.Parse "cid 65001" = Except.error err →
        FlowFilter.New lib [("filter", "tid 65001")] = none) ∧
      (∀ err, lib.Parse "protoo 4" = Except.error err →
        FlowFilter.New lib [("filter", "protoo 4")] = none) := by
  have g1 : StrMap.get [("filter", "tid 65001")] "filter" = "tid 65001" := by decide
  have g2 : containsTid "tid 65001" = true := by decide
  have g3 : rewriteTidToCid "tid 65001" = "cid 65001" := by decide
  refine ⟨⟨?_, ?_, ?_, ?_⟩, ?_, ?_, ?_⟩
  · have hp : (if containsTid (config.get "filter") then
          lib.Parse (rewriteTidToCid (config.get "filter"))
        else lib.Parse (config.get "filter")) =
        lib.Parse (if containsTid (config.get "filter") then
          rewriteTidToCid (config.get "filter") else config.get "filter") := by
      split <;> rfl
    unfold FlowFilter.New
    simp only [hp]
    cases hparse : lib.Parse (if containsTid (config.get "filter") then
        rewriteTidToCid (config.get "filter") else config.get "filter") with
    | error err => simp
    | ok e =>
      cases hcheck : (lib.CheckFlow false e {}).2 with
      | some err => simp [hcheck]
      | none => simp [hcheck]
  · have hp : (if containsTid (config.get "filter") then
          lib.Parse (rewriteTidToCid (config.get "filter"))
        else lib.Parse (config.get "filter")) =
        lib.Parse (if containsTid (config.get "filter") then
          rewriteTidToCid (config.get "filter") else config.get "filter") := by
      split <;> rfl
    intro seg hseg
    unfold FlowFilter.New at hseg
    simp only [hp] at hseg
    cases hparse : lib.Parse (if containsTid (config.get "filter") then
        rewriteTidToCid (config.get "filter") else config.get "filter") with
    | error err => simp [hparse] at hseg
    | ok e =>
      cases hcheck : (lib.CheckFlow false e {}).2 with
      | some err => simp [hparse, hcheck] at hseg
      | none =>
        simp only [hparse, hcheck] at hseg
        cases hseg
        exact ⟨rfl, rfl, containsTid_eq_true_iff _, rfl, rfl⟩
  · intro k
    by_cases hc : containsTid (config.get "filter") = true
    · simp only [hc, if_true]
      exact rewriteTidToCid_rune _ k
    · simp only [hc, if_false]
      exact (rewrittenRune_of_no_token _
        (fun h => hc ((containsTid_eq_true_iff _).mpr h)) k).symm
  · rintro ⟨i, hi⟩ heq
    have hc : containsTid (config.get "filter") = true :=
      (containsTid_eq_true_iff _).mpr ⟨i, hi⟩
    simp only [hc, if_true] at heq
    have h1 := rewriteTidToCid_rune (config.get "filter") i
    rw [heq] at h1
    exact rewrittenRune_ne_of_token _ i hi h1.symm
  · intro e he hcheck
    simp [FlowFilter.New, g1, g2, g3, he, hcheck]
  · intro err herr
    simp [FlowFilter.New, g1, g2, g3, herr]
  · intro err herr
    have h1 : StrMap.get [("filter", "protoo 4")] "filter" = "protoo 4" := by decide
    have h2 : containsTid "protoo 4" = false := by decide
    simp [FlowFilter.New, h1, h2, herr]

end Flowpipeline
